import Mathlib

/-!
Verification of the framed native-messaging protocol of
universal-bookmark-manager.

The embedding follows the source files:
* packages/native-messaging/src/host.ts — the stream assembler
  (setupMessageListener), the command dispatcher (handleMessage,
  extractBookmarks, getBookmarkDatabases) and the frame writer
  (sendMessage, sendError);
* packages/extension/src/background/native-messaging.ts — the request
  correlator (sendMessage, handleNativeResponse) and the connection
  manager (connectToNativeHost, disconnect);
* packages/shared/src/constants/index.ts — NATIVE_MESSAGE_TIMEOUT.

Bytes are modelled as natural numbers, JavaScript strings as lists of
UTF-16 code units, and the platform built-ins JSON.parse / JSON.stringify
(which are not part of the repository) are modelled from the spec on the
integer-numeric JSON fragment.
-/

namespace UBM

/-! ## Little-endian 32-bit length prefix

Models Buffer.writeUInt32LE / Buffer.readUInt32LE as used by
host.ts sendMessage and setupMessageListener. -/

/-- The four bytes of the little-endian 32-bit encoding of `n`
(Buffer.writeUInt32LE truncates to 32 bits). -/
def toLE4 (n : Nat) : List Nat :=
  [n % 256, n / 256 % 256, n / 65536 % 256, n / 16777216 % 256]

/-- Recombine four little-endian bytes (Buffer.readUInt32LE). -/
def fromLE4 (b0 b1 b2 b3 : Nat) : Nat :=
  b0 + 256 * b1 + 65536 * b2 + 16777216 * b3

/-- Read a 32-bit little-endian value from the front of a buffer
(defined whenever at least 4 bytes are present). -/
def readLE4 (l : List Nat) : Nat :=
  fromLE4 (l.getD 0 0) (l.getD 1 0) (l.getD 2 0) (l.getD 3 0)

theorem fromLE4_toLE4 (n : Nat) (h : n < 4294967296) :
    fromLE4 (n % 256) (n / 256 % 256) (n / 65536 % 256) (n / 16777216 % 256) = n := by
  unfold fromLE4
  omega

theorem readLE4_toLE4_append (n : Nat) (rest : List Nat) (h : n < 4294967296) :
    readLE4 (toLE4 n ++ rest) = n := by
  simp [readLE4, toLE4]
  exact fromLE4_toLE4 n h

/-- A frame on the wire: 4-byte little-endian length prefix followed by
exactly the payload bytes (host.ts sendMessage). -/
def encodeFrame (payload : List Nat) : List Nat :=
  toLE4 payload.length ++ payload

theorem encodeFrame_length (p : List Nat) : (encodeFrame p).length = 4 + p.length := by
  simp [encodeFrame, toLE4]; omega

/-! ## Stream assembler

State machine of host.ts setupMessageListener: the closure variables
`messageLength`, `messageBuffer`, `expectingLength`. -/

structure AsmState where
  expectingLength : Bool
  messageLength : Nat
  messageBuffer : List Nat
  deriving DecidableEq, Repr

/-- Initial assembler state: `messageLength = 0`, empty buffer,
`expectingLength = true`. -/
def asmInit : AsmState := ⟨true, 0, []⟩

/-- Measure justifying termination of the drain loop: every loop
iteration either consumes buffered bytes or flips `expectingLength`
back to `true` while consuming none (a zero-length payload). -/
def asmMeasure (s : AsmState) : Nat :=
  2 * s.messageBuffer.length + (if s.expectingLength then 0 else 1)

/-- The `while (true)` drain loop of setupMessageListener.  A loop
iteration reads a 4-byte length prefix when `expectingLength` holds and
at least 4 bytes are buffered; when the full declared payload is
buffered, it slices the payload off, emits it, resets to the
length-expecting state and loops; otherwise it breaks, keeping all
unconsumed bytes.  Returns the final state and the payloads emitted,
in order. -/
def drain (s : AsmState) : AsmState × List (List Nat) :=
  if hb : s.expectingLength ∧ 4 ≤ s.messageBuffer.length then
    drain ⟨false, readLE4 s.messageBuffer, s.messageBuffer.drop 4⟩
  else if hp : s.expectingLength = false ∧ s.messageLength ≤ s.messageBuffer.length then
    let r := drain ⟨true, 0, s.messageBuffer.drop s.messageLength⟩
    (r.1, s.messageBuffer.take s.messageLength :: r.2)
  else (s, [])
termination_by asmMeasure s
decreasing_by
  · obtain ⟨he, hl⟩ := hb
    simp [asmMeasure, he, List.length_drop]
    omega
  · obtain ⟨he, hl⟩ := hp
    simp [asmMeasure, he, List.length_drop]
    omega

/-- Handler of one `stdin.on('data')` chunk: append the chunk to the
buffer and drain. -/
def onData (s : AsmState) (chunk : List Nat) : AsmState × List (List Nat) :=
  drain ⟨s.expectingLength, s.messageLength, s.messageBuffer ++ chunk⟩

/-- Feed a sequence of chunks, accumulating emitted payloads in order. -/
def feedAll (s : AsmState) : List (List Nat) → AsmState × List (List Nat)
  | [] => (s, [])
  | c :: cs =>
    let r := onData s c
    let r' := feedAll r.1 cs
    (r'.1, r.2 ++ r'.2)

theorem drain_header (n : Nat) (buf : List Nat) (h : 4 ≤ buf.length) :
    drain ⟨true, n, buf⟩ = drain ⟨false, readLE4 buf, buf.drop 4⟩ := by
  rw [drain]
  simp [h]

theorem drain_wait_len (n : Nat) (buf : List Nat) (h : buf.length < 4) :
    drain ⟨true, n, buf⟩ = (⟨true, n, buf⟩, []) := by
  rw [drain]
  simp [Nat.not_le.mpr h]

theorem drain_payload (n : Nat) (buf : List Nat) (h : n ≤ buf.length) :
    drain ⟨false, n, buf⟩ =
      ((drain ⟨true, 0, buf.drop n⟩).1,
        buf.take n :: (drain ⟨true, 0, buf.drop n⟩).2) := by
  rw [drain]
  simp [h]

theorem drain_wait_payload (n : Nat) (buf : List Nat) (h : buf.length < n) :
    drain ⟨false, n, buf⟩ = (⟨false, n, buf⟩, []) := by
  rw [drain]
  simp [Nat.not_le.mpr h]

/-- A state the drain loop cannot make progress from: waiting for a
length prefix with fewer than 4 buffered bytes, or waiting for a
payload with fewer buffered bytes than declared. -/
def Quiescent (s : AsmState) : Prop :=
  (s.expectingLength = true ∧ s.messageBuffer.length < 4) ∨
  (s.expectingLength = false ∧ s.messageBuffer.length < s.messageLength)

theorem drain_of_quiescent {s : AsmState} (h : Quiescent s) : drain s = (s, []) := by
  rcases s with ⟨e, n, buf⟩
  rcases h with ⟨he, hl⟩ | ⟨he, hl⟩ <;> simp only at he <;> subst he
  · exact drain_wait_len n buf hl
  · exact drain_wait_payload n buf hl

theorem asmMeasure_header (n k : Nat) (buf : List Nat) (h : 4 ≤ buf.length) :
    asmMeasure ⟨false, k, buf.drop 4⟩ < asmMeasure ⟨true, n, buf⟩ := by
  simp [asmMeasure]
  omega

theorem asmMeasure_payload (n : Nat) (buf : List Nat) :
    asmMeasure ⟨true, 0, buf.drop n⟩ < asmMeasure ⟨false, n, buf⟩ := by
  simp [asmMeasure]
  omega

theorem quiescent_drain (s : AsmState) : Quiescent (drain s).1 := by
  generalize hm : asmMeasure s = m
  induction m using Nat.strong_induction_on generalizing s with
  | _ m ih =>
    rcases s with ⟨e, n, buf⟩
    cases e
    · by_cases h : n ≤ buf.length
      · rw [drain_payload n buf h]
        exact ih _ (hm ▸ asmMeasure_payload n buf) _ rfl
      · rw [drain_wait_payload n buf (Nat.not_le.mp h)]
        exact Or.inr ⟨rfl, Nat.not_le.mp h⟩
    · by_cases h : 4 ≤ buf.length
      · rw [drain_header n buf h]
        exact ih _ (hm ▸ asmMeasure_header n _ buf h) _ rfl
      · rw [drain_wait_len n buf (Nat.not_le.mp h)]
        exact Or.inl ⟨rfl, Nat.not_le.mp h⟩

/-- Append bytes to a state's buffer without draining. -/
def pushBytes (s : AsmState) (ext : List Nat) : AsmState :=
  ⟨s.expectingLength, s.messageLength, s.messageBuffer ++ ext⟩

theorem readLE4_append (buf ext : List Nat) (h : 4 ≤ buf.length) :
    readLE4 (buf ++ ext) = readLE4 buf := by
  unfold readLE4
  have h0 : (buf ++ ext).getD 0 0 = buf.getD 0 0 := by
    simp [List.getD_eq_getElem?_getD, List.getElem?_append_left (by omega : 0 < buf.length)]
  have h1 : (buf ++ ext).getD 1 0 = buf.getD 1 0 := by
    simp [List.getD_eq_getElem?_getD, List.getElem?_append_left (by omega : 1 < buf.length)]
  have h2 : (buf ++ ext).getD 2 0 = buf.getD 2 0 := by
    simp [List.getD_eq_getElem?_getD, List.getElem?_append_left (by omega : 2 < buf.length)]
  have h3 : (buf ++ ext).getD 3 0 = buf.getD 3 0 := by
    simp [List.getD_eq_getElem?_getD, List.getElem?_append_left (by omega : 3 < buf.length)]
  rw [h0, h1, h2, h3]

/-- Incrementality of the drain loop: draining with extra bytes
appended is the same as draining first, then draining again with the
extra bytes appended to whatever was left, concatenating the emitted
payloads.  This is what makes the assembler chunk-invariant. -/
theorem drain_append (s : AsmState) (ext : List Nat) :
    drain (pushBytes s ext) =
      ((drain (pushBytes (drain s).1 ext)).1,
        (drain s).2 ++ (drain (pushBytes (drain s).1 ext)).2) := by
  generalize hm : asmMeasure s = m
  induction m using Nat.strong_induction_on generalizing s with
  | _ m ih =>
    rcases s with ⟨e, n, buf⟩
    cases e
    · by_cases h : n ≤ buf.length
      · have hx : n ≤ (buf ++ ext).length := by
          rw [List.length_append]; omega
        rw [drain_payload n buf h]
        simp only [pushBytes]
        rw [drain_payload n (buf ++ ext) hx,
          List.take_append_of_le_length h, List.drop_append_of_le_length h]
        have := ih _ (hm ▸ asmMeasure_payload n buf) ⟨true, 0, buf.drop n⟩ rfl
        simp only [pushBytes] at this
        rw [this]
        rfl
      · rw [drain_wait_payload n buf (Nat.not_le.mp h)]
        simp [pushBytes]
    · by_cases h : 4 ≤ buf.length
      · have hx : 4 ≤ (buf ++ ext).length := by
          rw [List.length_append]; omega
        rw [drain_header n buf h]
        simp only [pushBytes]
        rw [drain_header n (buf ++ ext) hx, readLE4_append buf ext h,
          List.drop_append_of_le_length h]
        have := ih _ (hm ▸ asmMeasure_header n _ buf h) ⟨false, readLE4 buf, buf.drop 4⟩ rfl
        simp only [pushBytes] at this
        rw [this]
      · rw [drain_wait_len n buf (Nat.not_le.mp h)]
        simp [pushBytes]

/-- Feeding a list of chunks to a quiescent state is the same as
feeding all their bytes at once. -/
theorem feedAll_eq_drain_join (chunks : List (List Nat)) (s : AsmState)
    (hq : Quiescent s) :
    feedAll s chunks = drain (pushBytes s chunks.flatten) := by
  induction chunks generalizing s with
  | nil =>
    simp [feedAll, pushBytes, drain_of_quiescent hq]
  | cons c cs ih =>
    have hcons : (c :: cs).flatten = c ++ cs.flatten := by simp
    rw [feedAll]
    have honData : onData s c = drain (pushBytes s c) := rfl
    have happ := drain_append (pushBytes s c) cs.flatten
    have hpush : pushBytes (pushBytes s c) cs.flatten = pushBytes s (c ++ cs.flatten) := by
      simp [pushBytes]
    rw [hpush] at happ
    rw [hcons, happ, ← honData]
    have hq2 : Quiescent (onData s c).1 := quiescent_drain _
    rw [ih _ hq2]

theorem asmInit_quiescent : Quiescent asmInit := Or.inl ⟨rfl, by simp [asmInit]⟩

/-- Draining the concatenation of well-formed frames from the initial
state emits exactly the frames' payloads, in order, and returns to the
initial state. -/
theorem drain_frames (ps : List (List Nat))
    (h : ∀ p ∈ ps, p.length < 4294967296) :
    drain ⟨true, 0, (ps.map encodeFrame).flatten⟩ = (asmInit, ps) := by
  induction ps with
  | nil =>
    simp only [List.map_nil, List.flatten_nil]
    rw [drain_wait_len 0 [] (by simp)]
    rfl
  | cons p ps ih =>
    have hp : p.length < 4294967296 := h p (by simp)
    have hrest : ∀ q ∈ ps, q.length < 4294967296 := fun q hq => h q (by simp [hq])
    have hjoin : ((p :: ps).map encodeFrame).flatten
        = toLE4 p.length ++ (p ++ (ps.map encodeFrame).flatten) := by
      simp [encodeFrame, List.append_assoc]
    rw [hjoin]
    have hlen4 : (toLE4 p.length).length = 4 := by simp [toLE4]
    have hge : 4 ≤ (toLE4 p.length ++ (p ++ (ps.map encodeFrame).flatten)).length := by
      rw [List.length_append, hlen4]; omega
    rw [drain_header _ _ hge]
    rw [readLE4_toLE4_append p.length _ hp]
    rw [List.drop_left' hlen4]
    have hple : p.length ≤ (p ++ (ps.map encodeFrame).flatten).length := by
      rw [List.length_append]; omega
    rw [drain_payload _ _ hple]
    rw [List.take_left, List.drop_left]
    rw [ih hrest]

/-- C1 main statement: feeding any chunking of the byte stream of a
sequence of well-formed frames reproduces exactly the payloads, in
order, ending back in the initial state. -/
theorem feedAll_chunks (ps chunks : List (List Nat))
    (hlen : ∀ p ∈ ps, p.length < 4294967296)
    (hsplit : chunks.flatten = (ps.map encodeFrame).flatten) :
    feedAll asmInit chunks = (asmInit, ps) := by
  rw [feedAll_eq_drain_join chunks asmInit asmInit_quiescent, hsplit]
  have : pushBytes asmInit ((ps.map encodeFrame).flatten)
      = ⟨true, 0, (ps.map encodeFrame).flatten⟩ := by
    simp [pushBytes, asmInit]
  rw [this]
  exact drain_frames ps hlen

/-! ## JSON values

Modelled from the spec: the payload of every frame is UTF-8-encoded
JSON text produced by the platform built-ins JSON.stringify /
JSON.parse, which are not part of the repository.  JavaScript strings
are modelled as lists of UTF-16 code units; numbers are modelled on the
integer fragment (floating-point formatting is outside the model); the
modelled serializer escapes every code unit outside printable ASCII, so
its output is pure ASCII and UTF-8 encoding is the identity on it. -/

inductive Json where
  | null : Json
  | bool (b : Bool) : Json
  | num (n : Int) : Json
  | str (s : List Nat) : Json
  | arr (elems : List Json) : Json
  | obj (fields : List (List Nat × Json)) : Json

/-- ASCII decimal digit codes. -/
def isDigitCode (c : Nat) : Bool := 48 ≤ c && c ≤ 57

/-- Decimal digit codes of a natural number, most significant first. -/
def natDigits (n : Nat) : List Nat :=
  if n < 10 then [48 + n] else natDigits (n / 10) ++ [48 + n % 10]
termination_by n
decreasing_by exact Nat.div_lt_self (by omega) (by omega)

/-- Numeric value of a list of decimal digit codes. -/
def digitsVal (ds : List Nat) : Nat :=
  ds.foldl (fun a d => 10 * a + (d - 48)) 0

/-- Split the longest leading run of decimal digit codes. -/
def takeDigits : List Nat → List Nat × List Nat
  | [] => ([], [])
  | c :: r =>
    if isDigitCode c then
      let t := takeDigits r
      (c :: t.1, t.2)
    else ([], c :: r)

/-- Lower-case hexadecimal digit code for a value below 16. -/
def hexDigit (d : Nat) : Nat := if d < 10 then 48 + d else 87 + d

/-- The four hexadecimal digit codes of a code unit below 0x10000. -/
def hex4 (c : Nat) : List Nat :=
  [hexDigit (c / 4096 % 16), hexDigit (c / 256 % 16), hexDigit (c / 16 % 16), hexDigit (c % 16)]

def isHexCode (c : Nat) : Bool :=
  (48 ≤ c && c ≤ 57) || (97 ≤ c && c ≤ 102) || (65 ≤ c && c ≤ 70)

def hexVal (c : Nat) : Nat :=
  if c ≤ 57 then c - 48 else if c ≤ 70 then c - 55 else c - 87

/-- JSON string-body escaping of a list of UTF-16 code units: quote and
backslash get two-character escapes, anything outside printable ASCII a
four-digit hexadecimal escape. -/
def escapeUnits : List Nat → List Nat
  | [] => []
  | c :: r =>
    (if c = 34 then [92, 34]
     else if c = 92 then [92, 92]
     else if c < 32 ∨ 127 ≤ c then 92 :: 117 :: hex4 c
     else [c]) ++ escapeUnits r

/-- Serialized string literal: quote, escaped body, quote. -/
def strLit (s : List Nat) : List Nat := 34 :: (escapeUnits s ++ [34])

mutual

/-- JSON.stringify modelled on the integer fragment, producing ASCII
codes. -/
def stringify : Json → List Nat
  | .null => [110, 117, 108, 108]
  | .bool true => [116, 114, 117, 101]
  | .bool false => [102, 97, 108, 115, 101]
  | .num (Int.ofNat m) => natDigits m
  | .num (Int.negSucc m) => 45 :: natDigits (m + 1)
  | .str s => strLit s
  | .arr xs => 91 :: (sepArr xs ++ [93])
  | .obj fs => 123 :: (sepObj fs ++ [125])

/-- Comma-separated serialized array elements. -/
def sepArr : List Json → List Nat
  | [] => []
  | [x] => stringify x
  | x :: y :: r => stringify x ++ 44 :: sepArr (y :: r)

/-- Comma-separated serialized object members. -/
def sepObj : List (List Nat × Json) → List Nat
  | [] => []
  | [(k, v)] => strLit k ++ 58 :: stringify v
  | (k, v) :: m :: r => (strLit k ++ 58 :: stringify v) ++ 44 :: sepObj (m :: r)

end

mutual

/-- Node-count size of a JSON value, used as parser fuel accounting. -/
def jsize : Json → Nat
  | .null => 1
  | .bool _ => 1
  | .num _ => 1
  | .str _ => 1
  | .arr xs => 1 + jlsize xs
  | .obj fs => 1 + jmsize fs

def jlsize : List Json → Nat
  | [] => 1
  | x :: t => 1 + jsize x + jlsize t

def jmsize : List (List Nat × Json) → Nat
  | [] => 1
  | (_, v) :: t => 1 + jsize v + jmsize t

end

/-- All code units below 0x10000 (the invariant of UTF-16 data). -/
def unitsWF (s : List Nat) : Bool := s.all (· < 65536)

mutual

/-- Well-formedness: every string in the value consists of UTF-16 code
units. -/
def jsonWF : Json → Bool
  | .null => true
  | .bool _ => true
  | .num _ => true
  | .str s => unitsWF s
  | .arr xs => jsonListWF xs
  | .obj fs => jsonObjWF fs

def jsonListWF : List Json → Bool
  | [] => true
  | x :: t => jsonWF x && jsonListWF t

def jsonObjWF : List (List Nat × Json) → Bool
  | [] => true
  | (k, v) :: t => unitsWF k && jsonWF v && jsonObjWF t

end

/-- Match a literal continuation. -/
def expectLit : List Nat → List Nat → Option (List Nat)
  | [], s => some s
  | a :: t, b :: r => if b = a then expectLit t r else none
  | _ :: _, [] => none

/-- Parse the body of a string literal after the opening quote, up to
and including the closing quote. -/
def parseStrBody : List Nat → Option (List Nat × List Nat)
  | [] => none
  | c :: r =>
    if c = 34 then some ([], r)
    else if c = 92 then
      match r with
      | [] => none
      | e :: r2 =>
        if e = 34 then (parseStrBody r2).map (fun p => (34 :: p.1, p.2))
        else if e = 92 then (parseStrBody r2).map (fun p => (92 :: p.1, p.2))
        else if e = 47 then (parseStrBody r2).map (fun p => (47 :: p.1, p.2))
        else if e = 98 then (parseStrBody r2).map (fun p => (8 :: p.1, p.2))
        else if e = 102 then (parseStrBody r2).map (fun p => (12 :: p.1, p.2))
        else if e = 110 then (parseStrBody r2).map (fun p => (10 :: p.1, p.2))
        else if e = 114 then (parseStrBody r2).map (fun p => (13 :: p.1, p.2))
        else if e = 116 then (parseStrBody r2).map (fun p => (9 :: p.1, p.2))
        else if e = 117 then
          match r2 with
          | h1 :: h2 :: h3 :: h4 :: r3 =>
            if isHexCode h1 && isHexCode h2 && isHexCode h3 && isHexCode h4 then
              (parseStrBody r3).map (fun p =>
                ((4096 * hexVal h1 + 256 * hexVal h2 + 16 * hexVal h3 + hexVal h4) :: p.1, p.2))
            else none
          | _ => none
        else none
    else (parseStrBody r).map (fun p => (c :: p.1, p.2))

mutual

/-- Recursive-descent JSON value parser (whitespace-free fragment),
with fuel bounding recursion depth. -/
def parseValue : Nat → List Nat → Option (Json × List Nat)
  | 0, _ => none
  | _ + 1, [] => none
  | fuel + 1, c :: r =>
    if c = 110 then (expectLit [117, 108, 108] r).map (fun r2 => (Json.null, r2))
    else if c = 116 then (expectLit [114, 117, 101] r).map (fun r2 => (Json.bool true, r2))
    else if c = 102 then (expectLit [97, 108, 115, 101] r).map (fun r2 => (Json.bool false, r2))
    else if c = 34 then (parseStrBody r).map (fun p => (Json.str p.1, p.2))
    else if c = 45 then
      if (takeDigits r).1 = [] then none
      else some (Json.num (-(digitsVal (takeDigits r).1 : Int)), (takeDigits r).2)
    else if isDigitCode c then
      some (Json.num ((digitsVal (takeDigits (c :: r)).1 : Nat) : Int), (takeDigits (c :: r)).2)
    else if c = 91 then
      match r with
      | [] => none
      | d :: r2 =>
        if d = 93 then some (Json.arr [], r2)
        else (parseElems fuel (d :: r2)).map (fun p => (Json.arr p.1, p.2))
    else if c = 123 then
      match r with
      | [] => none
      | d :: r2 =>
        if d = 125 then some (Json.obj [], r2)
        else (parseMembers fuel (d :: r2)).map (fun p => (Json.obj p.1, p.2))
    else none

/-- Parse one or more comma-separated array elements and the closing
bracket. -/
def parseElems : Nat → List Nat → Option (List Json × List Nat)
  | 0, _ => none
  | fuel + 1, s =>
    match parseValue fuel s with
    | none => none
    | some (j, r) =>
      match r with
      | 44 :: r2 => (parseElems fuel r2).map (fun p => (j :: p.1, p.2))
      | 93 :: r2 => some ([j], r2)
      | _ => none

/-- Parse one or more comma-separated object members and the closing
brace. -/
def parseMembers : Nat → List Nat → Option (List (List Nat × Json) × List Nat)
  | 0, _ => none
  | fuel + 1, s =>
    match s with
    | 34 :: r =>
      match parseStrBody r with
      | none => none
      | some (k, r1) =>
        match r1 with
        | 58 :: r2 =>
          match parseValue fuel r2 with
          | none => none
          | some (v, r3) =>
            match r3 with
            | 44 :: r4 => (parseMembers fuel r4).map (fun p => ((k, v) :: p.1, p.2))
            | 125 :: r4 => some ([(k, v)], r4)
            | _ => none
        | _ => none
    | _ => none

end

/-- JSON.parse model: a parse succeeds only when it consumes the whole
text. -/
def parse (s : List Nat) : Option Json :=
  match parseValue (2 * s.length + 1) s with
  | some (j, []) => some j
  | _ => none

/-! ## Round-trip lemmas for the JSON codec -/

theorem natDigits_ne_nil (n : Nat) : natDigits n ≠ [] := by
  rw [natDigits]
  by_cases h : n < 10 <;> simp [h]

theorem natDigits_digits (n : Nat) : ∀ c ∈ natDigits n, isDigitCode c = true := by
  induction n using Nat.strong_induction_on with
  | _ n ih =>
    rw [natDigits]
    by_cases h : n < 10
    · simp [h, isDigitCode]
      omega
    · simp only [h, if_false, List.mem_append, List.mem_singleton]
      intro c hc
      rcases hc with hc | hc
      · exact ih (n / 10) (Nat.div_lt_self (by omega) (by omega)) c hc
      · subst hc
        simp [isDigitCode]
        omega

theorem digitsVal_append (ds : List Nat) (d : Nat) :
    digitsVal (ds ++ [d]) = 10 * digitsVal ds + (d - 48) := by
  simp [digitsVal, List.foldl_append]

theorem digitsVal_natDigits (n : Nat) : digitsVal (natDigits n) = n := by
  induction n using Nat.strong_induction_on with
  | _ n ih =>
    rw [natDigits]
    by_cases h : n < 10
    · rw [if_pos h]
      simp [digitsVal]
    · rw [if_neg h, digitsVal_append, ih (n / 10) (Nat.div_lt_self (by omega) (by omega))]
      omega

/-- The continuation does not begin with a digit code (so a maximal
digit run ends exactly where the serialized number ends). -/
def StartsNonDigit (l : List Nat) : Prop :=
  ∀ c, l.head? = some c → isDigitCode c = false

theorem takeDigits_append (ds rest : List Nat)
    (hds : ∀ c ∈ ds, isDigitCode c = true) (hrest : StartsNonDigit rest) :
    takeDigits (ds ++ rest) = (ds, rest) := by
  induction ds with
  | nil =>
    simp only [List.nil_append]
    cases rest with
    | nil => rfl
    | cons c r =>
      have : isDigitCode c = false := hrest c rfl
      simp [takeDigits, this]
  | cons d t ih =>
    have hd : isDigitCode d = true := hds d (by simp)
    have ht : ∀ c ∈ t, isDigitCode c = true := fun c hc => hds c (by simp [hc])
    simp [takeDigits, hd, ih ht]

theorem expectLit_append (lit rest : List Nat) :
    expectLit lit (lit ++ rest) = some rest := by
  induction lit with
  | nil => rfl
  | cons a t ih => simp [expectLit, ih]

theorem isHexCode_hexDigit (d : Nat) (h : d < 16) : isHexCode (hexDigit d) = true := by
  unfold isHexCode hexDigit
  by_cases h10 : d < 10
  · rw [if_pos h10]
    simp only [Bool.or_eq_true, Bool.and_eq_true, decide_eq_true_eq]
    omega
  · rw [if_neg h10]
    simp only [Bool.or_eq_true, Bool.and_eq_true, decide_eq_true_eq]
    omega

theorem hexVal_hexDigit (d : Nat) (h : d < 16) : hexVal (hexDigit d) = d := by
  unfold hexVal hexDigit
  by_cases h10 : d < 10
  · rw [if_pos h10, if_pos (by omega)]
    omega
  · rw [if_neg h10, if_neg (by omega), if_neg (by omega)]
    omega

theorem hex4_val (c : Nat) (h : c < 65536) :
    4096 * hexVal (hexDigit (c / 4096 % 16)) + 256 * hexVal (hexDigit (c / 256 % 16)) +
      16 * hexVal (hexDigit (c / 16 % 16)) + hexVal (hexDigit (c % 16)) = c := by
  rw [hexVal_hexDigit _ (by omega), hexVal_hexDigit _ (by omega),
    hexVal_hexDigit _ (by omega), hexVal_hexDigit _ (by omega)]
  omega

theorem parseStrBody_escape (s rest : List Nat) (hwf : unitsWF s = true) :
    parseStrBody (escapeUnits s ++ (34 :: rest)) = some (s, rest) := by
  induction s with
  | nil =>
    rw [escapeUnits, List.nil_append, parseStrBody.eq_def]
    simp
  | cons u t ih =>
    have hu : u < 65536 := by
      have := (List.all_eq_true.mp hwf) u (by simp)
      simpa using this
    have ht : unitsWF t = true := by
      apply List.all_eq_true.mpr
      intro x hx
      exact (List.all_eq_true.mp hwf) x (by simp [hx])
    by_cases h34 : u = 34
    · subst h34
      have henc : escapeUnits (34 :: t) = 92 :: 34 :: escapeUnits t := by
        rw [escapeUnits]
        simp
      rw [henc, List.cons_append, List.cons_append, parseStrBody.eq_def]
      simp [ih ht]
    · by_cases h92 : u = 92
      · subst h92
        have henc : escapeUnits (92 :: t) = 92 :: 92 :: escapeUnits t := by
          rw [escapeUnits]
          simp
        rw [henc, List.cons_append, List.cons_append, parseStrBody.eq_def]
        simp [ih ht]
      · by_cases hctl : u < 32 ∨ 127 ≤ u
        · have henc : escapeUnits (u :: t)
              = 92 :: 117 :: hex4 u ++ escapeUnits t := by
            rw [escapeUnits]
            simp [h34, h92, hctl]
          have ha : isHexCode (hexDigit (u / 4096 % 16)) = true :=
            isHexCode_hexDigit _ (by omega)
          have hb : isHexCode (hexDigit (u / 256 % 16)) = true :=
            isHexCode_hexDigit _ (by omega)
          have hc : isHexCode (hexDigit (u / 16 % 16)) = true :=
            isHexCode_hexDigit _ (by omega)
          have hd : isHexCode (hexDigit (u % 16)) = true :=
            isHexCode_hexDigit _ (by omega)
          rw [henc]
          simp only [hex4, List.cons_append, List.append_assoc, List.nil_append]
          rw [parseStrBody.eq_def]
          simp [ha, hb, hc, hd, ih ht, hex4_val u hu]
        · have henc : escapeUnits (u :: t) = u :: escapeUnits t := by
            rw [escapeUnits]
            simp [h34, h92, hctl]
          rw [henc, List.cons_append, parseStrBody.eq_def]
          simp [h34, h92, ih ht]

theorem jsize_pos (j : Json) : 1 ≤ jsize j := by
  cases j <;> simp [jsize]

theorem jlsize_pos (xs : List Json) : 1 ≤ jlsize xs := by
  cases xs <;> simp [jlsize] <;> omega

theorem jmsize_pos (fs : List (List Nat × Json)) : 1 ≤ jmsize fs := by
  cases fs with
  | nil => simp [jmsize]
  | cons f t =>
    rcases f with ⟨k, v⟩
    simp [jmsize]
    omega

theorem startsNonDigit_cons (a : Nat) (l : List Nat) (h : isDigitCode a = false) :
    StartsNonDigit (a :: l) := by
  intro c hc
  simp only [List.head?_cons, Option.some.injEq] at hc
  subst hc
  exact h

theorem startsNonDigit_nil : StartsNonDigit [] := by
  intro c hc
  simp at hc

/-- Every serialized value is nonempty, and its first character is a
value-starting character (never a closing bracket, closing brace,
comma or colon). -/
theorem stringify_head (j : Json) :
    ∃ c r, stringify j = c :: r ∧ c ≠ 93 ∧ c ≠ 125 ∧ c ≠ 44 ∧ c ≠ 58 := by
  cases j with
  | null => exact ⟨110, [117, 108, 108], by simp [stringify], by omega, by omega, by omega, by omega⟩
  | bool b =>
    cases b
    · exact ⟨102, [97, 108, 115, 101], by simp [stringify], by omega, by omega, by omega, by omega⟩
    · exact ⟨116, [114, 117, 101], by simp [stringify], by omega, by omega, by omega, by omega⟩
  | num n =>
    cases n with
    | ofNat m =>
      obtain ⟨d, ds, hds⟩ := List.exists_cons_of_ne_nil (natDigits_ne_nil m)
      have hd : isDigitCode d = true := natDigits_digits m d (by rw [hds]; simp)
      have : 48 ≤ d ∧ d ≤ 57 := by simpa [isDigitCode] using hd
      exact ⟨d, ds, by simp [stringify, hds], by omega, by omega, by omega, by omega⟩
    | negSucc m =>
      exact ⟨45, natDigits (m + 1), by simp [stringify], by omega, by omega, by omega, by omega⟩
  | str s =>
    exact ⟨34, escapeUnits s ++ [34], by simp [stringify, strLit], by omega, by omega, by omega, by omega⟩
  | arr xs =>
    exact ⟨91, sepArr xs ++ [93], by simp [stringify], by omega, by omega, by omega, by omega⟩
  | obj fs =>
    exact ⟨123, sepObj fs ++ [125], by simp [stringify], by omega, by omega, by omega, by omega⟩

theorem sepArr_bound (xs : List Json)
    (h : ∀ x ∈ xs, jsize x ≤ 2 * (stringify x).length) :
    jlsize xs ≤ 2 * (sepArr xs).length + 2 := by
  induction xs with
  | nil => simp [jlsize, sepArr]
  | cons x t ih =>
    have hx : jsize x ≤ 2 * (stringify x).length := h x (by simp)
    cases t with
    | nil =>
      simp only [sepArr, jlsize]
      omega
    | cons y t2 =>
      have ht : jlsize (y :: t2) ≤ 2 * (sepArr (y :: t2)).length + 2 :=
        ih (fun z hz => h z (by simp [hz]))
      simp only [sepArr, jlsize, List.length_append, List.length_cons]
      simp only [jlsize] at ht
      omega

theorem sepObj_bound (fs : List (List Nat × Json))
    (h : ∀ p ∈ fs, jsize p.2 ≤ 2 * (stringify p.2).length) :
    jmsize fs ≤ 2 * (sepObj fs).length + 2 := by
  induction fs with
  | nil => simp [jmsize, sepObj]
  | cons f t ih =>
    rcases f with ⟨k, v⟩
    have hv : jsize v ≤ 2 * (stringify v).length := h (k, v) (by simp)
    cases t with
    | nil =>
      simp only [sepObj, jmsize, List.length_append, List.length_cons]
      omega
    | cons g t2 =>
      have ht : jmsize (g :: t2) ≤ 2 * (sepObj (g :: t2)).length + 2 :=
        ih (fun z hz => h z (by simp [hz]))
      rcases g with ⟨k2, v2⟩
      simp only [sepObj, jmsize, List.length_append, List.length_cons]
      simp only [jmsize] at ht
      omega

theorem jsize_le_stringify (j : Json) : jsize j ≤ 2 * (stringify j).length := by
  generalize hn : jsize j = n
  induction n using Nat.strong_induction_on generalizing j with
  | _ n ih =>
    subst hn
    cases j with
    | null => simp [jsize, stringify]
    | bool b => cases b <;> simp [jsize, stringify]
    | num m =>
      have h1 : jsize (Json.num m) = 1 := by simp [jsize]
      have h2 : stringify (Json.num m) ≠ [] := by
        cases m with
        | ofNat k => simp [stringify, natDigits_ne_nil]
        | negSucc k => simp [stringify]
      have := List.length_pos.mpr h2
      omega
    | str s =>
      have h1 : jsize (Json.str s) = 1 := by simp [jsize]
      have h2 : stringify (Json.str s) = 34 :: (escapeUnits s ++ [34]) := by
        simp [stringify, strLit]
      rw [h1, h2]
      simp
      omega
    | arr xs =>
      have hx : ∀ x ∈ xs, jsize x ≤ 2 * (stringify x).length := by
        intro x hx
        apply ih (jsize x) _ x rfl
        have hlt : jsize x < jlsize xs := by
          clear ih
          induction xs with
          | nil => cases hx
          | cons y t iht =>
            rcases List.mem_cons.mp hx with h | h
            · subst h
              have := jlsize_pos t
              simp only [jlsize]
              omega
            · have := iht h
              have := jsize_pos y
              simp only [jlsize]
              omega
        simp only [jsize]
        omega
      have hb := sepArr_bound xs hx
      have hs : stringify (Json.arr xs) = 91 :: (sepArr xs ++ [93]) := by simp [stringify]
      rw [hs]
      simp only [jsize, List.length_cons, List.length_append, List.length_singleton]
      omega
    | obj fs =>
      have hx : ∀ p ∈ fs, jsize p.2 ≤ 2 * (stringify p.2).length := by
        intro p hp
        apply ih (jsize p.2) _ p.2 rfl
        have hlt : jsize p.2 < jmsize fs := by
          clear ih
          induction fs with
          | nil => cases hp
          | cons g t iht =>
            rcases List.mem_cons.mp hp with h | h
            · subst h
              have := jmsize_pos t
              rcases p with ⟨k, v⟩
              simp only [jmsize]
              omega
            · have := iht h
              rcases g with ⟨k2, v2⟩
              have := jsize_pos v2
              simp only [jmsize]
              omega
        simp only [jsize]
        omega
      have hb := sepObj_bound fs hx
      have hs : stringify (Json.obj fs) = 123 :: (sepObj fs ++ [125]) := by simp [stringify]
      rw [hs]
      simp only [jsize, List.length_cons, List.length_append, List.length_singleton]
      omega

/-! Unfolding equations for the parser (structural recursion on fuel,
so each is definitional). -/

theorem parseValue_succ (fuel c : Nat) (r : List Nat) : parseValue (fuel + 1) (c :: r) =
    (if c = 110 then (expectLit [117, 108, 108] r).map (fun r2 => (Json.null, r2))
    else if c = 116 then (expectLit [114, 117, 101] r).map (fun r2 => (Json.bool true, r2))
    else if c = 102 then (expectLit [97, 108, 115, 101] r).map (fun r2 => (Json.bool false, r2))
    else if c = 34 then (parseStrBody r).map (fun p => (Json.str p.1, p.2))
    else if c = 45 then
      if (takeDigits r).1 = [] then none
      else some (Json.num (-(digitsVal (takeDigits r).1 : Int)), (takeDigits r).2)
    else if isDigitCode c then
      some (Json.num ((digitsVal (takeDigits (c :: r)).1 : Nat) : Int), (takeDigits (c :: r)).2)
    else if c = 91 then
      match r with
      | [] => none
      | d :: r2 =>
        if d = 93 then some (Json.arr [], r2)
        else (parseElems fuel (d :: r2)).map (fun p => (Json.arr p.1, p.2))
    else if c = 123 then
      match r with
      | [] => none
      | d :: r2 =>
        if d = 125 then some (Json.obj [], r2)
        else (parseMembers fuel (d :: r2)).map (fun p => (Json.obj p.1, p.2))
    else none) := rfl

theorem parseValue_arrCons (fuel d : Nat) (r2 : List Nat) :
    parseValue (fuel + 1) (91 :: d :: r2) =
      (if d = 93 then some (Json.arr [], r2)
       else (parseElems fuel (d :: r2)).map (fun p => (Json.arr p.1, p.2))) := rfl

theorem parseValue_objCons (fuel d : Nat) (r2 : List Nat) :
    parseValue (fuel + 1) (123 :: d :: r2) =
      (if d = 125 then some (Json.obj [], r2)
       else (parseMembers fuel (d :: r2)).map (fun p => (Json.obj p.1, p.2))) := rfl

theorem parseElems_succ (fuel : Nat) (s : List Nat) : parseElems (fuel + 1) s =
    (match parseValue fuel s with
    | none => none
    | some (j, r) =>
      match r with
      | 44 :: r2 => (parseElems fuel r2).map (fun p => (j :: p.1, p.2))
      | 93 :: r2 => some ([j], r2)
      | _ => none) := rfl

theorem parseMembers_34 (fuel : Nat) (r : List Nat) : parseMembers (fuel + 1) (34 :: r) =
    (match parseStrBody r with
    | none => none
    | some (k, r1) =>
      match r1 with
      | 58 :: r2 =>
        match parseValue fuel r2 with
        | none => none
        | some (v, r3) =>
          match r3 with
          | 44 :: r4 => (parseMembers fuel r4).map (fun p => ((k, v) :: p.1, p.2))
          | 125 :: r4 => some ([(k, v)], r4)
          | _ => none
      | _ => none) := rfl

/-- Round-trip of the JSON codec, by induction on parser fuel: parsing
the serialization of a value (followed by any non-digit-starting
continuation) succeeds, returns the value, and consumes exactly the
serialized text. -/
theorem parseValue_stringify : ∀ fuel : Nat,
    (∀ j rest, jsonWF j = true → jsize j ≤ fuel → StartsNonDigit rest →
      parseValue fuel (stringify j ++ rest) = some (j, rest)) ∧
    (∀ xs rest, jsonListWF xs = true → jlsize xs ≤ fuel → xs ≠ [] →
      parseElems fuel (sepArr xs ++ (93 :: rest)) = some (xs, rest)) ∧
    (∀ fs rest, jsonObjWF fs = true → jmsize fs ≤ fuel → fs ≠ [] →
      parseMembers fuel (sepObj fs ++ (125 :: rest)) = some (fs, rest)) := by
  intro fuel
  induction fuel with
  | zero =>
    refine ⟨fun j _ _ h _ => absurd h (by have := jsize_pos j; omega),
      fun xs _ _ h _ => absurd h (by have := jlsize_pos xs; omega),
      fun fs _ _ h _ => absurd h (by have := jmsize_pos fs; omega)⟩
  | succ f ih =>
    obtain ⟨ihV, ihE, ihM⟩ := ih
    refine ⟨?_, ?_, ?_⟩
    · intro j rest hwf hsz hrest
      cases j with
      | null =>
        have hs : stringify Json.null = [110, 117, 108, 108] := by simp [stringify]
        rw [hs]
        simp only [List.cons_append, List.nil_append]
        rw [parseValue_succ]
        simp only [if_pos rfl]
        rw [show (117 : Nat) :: 108 :: 108 :: rest = [117, 108, 108] ++ rest from rfl,
          expectLit_append]
        rfl
      | bool b =>
        cases b
        · have hs : stringify (Json.bool false) = [102, 97, 108, 115, 101] := by
            simp [stringify]
          rw [hs]
          simp only [List.cons_append, List.nil_append]
          rw [parseValue_succ]
          rw [if_neg (by omega), if_neg (by omega), if_pos rfl]
          rw [show (97 : Nat) :: 108 :: 115 :: 101 :: rest = [97, 108, 115, 101] ++ rest from rfl,
            expectLit_append]
          rfl
        · have hs : stringify (Json.bool true) = [116, 114, 117, 101] := by
            simp [stringify]
          rw [hs]
          simp only [List.cons_append, List.nil_append]
          rw [parseValue_succ]
          rw [if_neg (by omega), if_pos rfl]
          rw [show (114 : Nat) :: 117 :: 101 :: rest = [114, 117, 101] ++ rest from rfl,
            expectLit_append]
          rfl
      | num n =>
        cases n with
        | ofNat m =>
          have hs : stringify (Json.num (Int.ofNat m)) = natDigits m := by simp [stringify]
          obtain ⟨d, ds, hds⟩ := List.exists_cons_of_ne_nil (natDigits_ne_nil m)
          have hd : isDigitCode d = true := natDigits_digits m d (by rw [hds]; simp)
          have hdb : 48 ≤ d ∧ d ≤ 57 := by simpa [isDigitCode] using hd
          rw [hs, hds, List.cons_append, parseValue_succ]
          rw [if_neg (by omega), if_neg (by omega), if_neg (by omega),
            if_neg (by omega), if_neg (by omega), if_pos hd]
          rw [← List.cons_append, ← hds,
            takeDigits_append (natDigits m) rest (natDigits_digits m) hrest]
          simp [digitsVal_natDigits]
        | negSucc m =>
          have hs : stringify (Json.num (Int.negSucc m)) = 45 :: natDigits (m + 1) := by
            simp [stringify]
          rw [hs, List.cons_append, parseValue_succ]
          rw [if_neg (by omega), if_neg (by omega), if_neg (by omega),
            if_neg (by omega), if_pos rfl]
          rw [takeDigits_append (natDigits (m + 1)) rest (natDigits_digits (m + 1)) hrest]
          simp only [if_neg (natDigits_ne_nil (m + 1)), digitsVal_natDigits]
          have : Int.negSucc m = -((m + 1 : Nat) : Int) := by
            rw [Int.negSucc_eq]
            push_cast
            ring
          rw [this]
      | str s =>
        have hs : stringify (Json.str s) = 34 :: (escapeUnits s ++ [34]) := by
          simp [stringify, strLit]
        have hwfs : unitsWF s = true := by simpa [jsonWF] using hwf
        rw [hs, List.cons_append, parseValue_succ]
        rw [if_neg (by omega), if_neg (by omega), if_neg (by omega), if_pos rfl]
        rw [List.append_assoc, List.singleton_append]
        rw [parseStrBody_escape s rest hwfs]
        rfl
      | arr xs =>
        cases xs with
        | nil =>
          have hs : stringify (Json.arr []) = [91, 93] := by simp [stringify, sepArr]
          rw [hs]
          simp only [List.cons_append, List.nil_append]
          rw [parseValue_arrCons]
          rw [if_pos rfl]
        | cons x t =>
          have hs : stringify (Json.arr (x :: t)) = 91 :: (sepArr (x :: t) ++ [93]) := by
            simp [stringify]
          have hsz2 : jlsize (x :: t) ≤ f := by
            have : jsize (Json.arr (x :: t)) = 1 + jlsize (x :: t) := by simp [jsize]
            omega
          have hwf2 : jsonListWF (x :: t) = true := by simpa [jsonWF] using hwf
          obtain ⟨tl, htl⟩ : ∃ tl, sepArr (x :: t) = stringify x ++ tl := by
            cases t with
            | nil => exact ⟨[], by simp [sepArr]⟩
            | cons y t2 => exact ⟨44 :: sepArr (y :: t2), by simp [sepArr]⟩
          obtain ⟨c0, r0, hc0, h93, _, _, _⟩ := stringify_head x
          have hexp : (sepArr (x :: t) ++ [93]) ++ rest
              = c0 :: (r0 ++ tl ++ (93 :: rest)) := by
            rw [htl, hc0]
            simp [List.append_assoc]
          rw [hs, List.cons_append, hexp, parseValue_arrCons, if_neg h93]
          rw [show c0 :: (r0 ++ tl ++ (93 :: rest)) = sepArr (x :: t) ++ (93 :: rest) by
            rw [htl, hc0]; simp [List.append_assoc]]
          rw [ihE (x :: t) rest hwf2 hsz2 (by simp)]
          rfl
      | obj fs =>
        cases fs with
        | nil =>
          have hs : stringify (Json.obj []) = [123, 125] := by simp [stringify, sepObj]
          rw [hs]
          simp only [List.cons_append, List.nil_append]
          rw [parseValue_objCons]
          rw [if_pos rfl]
        | cons p t =>
          rcases p with ⟨k, v⟩
          have hs : stringify (Json.obj ((k, v) :: t))
              = 123 :: (sepObj ((k, v) :: t) ++ [125]) := by
            simp [stringify]
          have hsz2 : jmsize ((k, v) :: t) ≤ f := by
            have : jsize (Json.obj ((k, v) :: t)) = 1 + jmsize ((k, v) :: t) := by
              simp [jsize]
            omega
          have hwf2 : jsonObjWF ((k, v) :: t) = true := by simpa [jsonWF] using hwf
          obtain ⟨tl, htl⟩ : ∃ tl, sepObj ((k, v) :: t) = 34 :: tl := by
            cases t with
            | nil => exact ⟨escapeUnits k ++ [34] ++ 58 :: stringify v, by simp [sepObj, strLit]⟩
            | cons g t2 =>
              exact ⟨(escapeUnits k ++ [34] ++ 58 :: stringify v) ++ 44 :: sepObj (g :: t2),
                by simp [sepObj, strLit, List.append_assoc]⟩
          have hexp : (sepObj ((k, v) :: t) ++ [125]) ++ rest
              = 34 :: (tl ++ (125 :: rest)) := by
            rw [htl]
            simp [List.append_assoc]
          rw [hs, List.cons_append, hexp, parseValue_objCons, if_neg (by omega)]
          rw [show (34 : Nat) :: (tl ++ (125 :: rest)) = sepObj ((k, v) :: t) ++ (125 :: rest) by
            rw [htl]; simp [List.append_assoc]]
          rw [ihM ((k, v) :: t) rest hwf2 hsz2 (by simp)]
          rfl
    · intro xs rest hwf hsz hne
      cases xs with
      | nil => exact absurd rfl hne
      | cons x t =>
        have hcons : jsonWF x = true ∧ jsonListWF t = true := by
          simpa [jsonListWF, Bool.and_eq_true] using hwf
        have hwfx : jsonWF x = true := hcons.1
        have hwft : jsonListWF t = true := hcons.2
        have hszx : jsize x ≤ f := by
          have h1 : jlsize (x :: t) = 1 + jsize x + jlsize t := by simp [jlsize]
          have := jlsize_pos t
          omega
        cases t with
        | nil =>
          have hsep : sepArr [x] = stringify x := by simp [sepArr]
          rw [parseElems_succ, hsep]
          rw [ihV x (93 :: rest) hwfx hszx (startsNonDigit_cons 93 rest rfl)]
        | cons y t2 =>
          have hsep : sepArr (x :: y :: t2) = stringify x ++ 44 :: sepArr (y :: t2) := by
            simp [sepArr]
          have hszt : jlsize (y :: t2) ≤ f := by
            have h1 : jlsize (x :: y :: t2) = 1 + jsize x + jlsize (y :: t2) := by
              simp [jlsize]
            have := jsize_pos x
            omega
          rw [parseElems_succ, hsep]
          rw [List.append_assoc, List.cons_append]
          rw [ihV x (44 :: (sepArr (y :: t2) ++ 93 :: rest)) hwfx hszx
            (startsNonDigit_cons 44 _ rfl)]
          simp only
          rw [ihE (y :: t2) rest hwft hszt (by simp)]
          rfl
    · intro fs rest hwf hsz hne
      cases fs with
      | nil => exact absurd rfl hne
      | cons p t =>
        rcases p with ⟨k, v⟩
        have hobj : (unitsWF k = true ∧ jsonWF v = true) ∧ jsonObjWF t = true := by
          simpa [jsonObjWF, Bool.and_eq_true] using hwf
        have hwfk : unitsWF k = true := hobj.1.1
        have hwfv : jsonWF v = true := hobj.1.2
        have hwft : jsonObjWF t = true := hobj.2
        have hszv : jsize v ≤ f := by
          have h1 : jmsize ((k, v) :: t) = 1 + jsize v + jmsize t := by simp [jmsize]
          have := jmsize_pos t
          omega
        cases t with
        | nil =>
          have hin : sepObj [(k, v)] ++ (125 :: rest)
              = 34 :: (escapeUnits k ++ (34 :: (58 :: (stringify v ++ (125 :: rest))))) := by
            simp [sepObj, strLit, List.append_assoc]
          rw [hin, parseMembers_34]
          rw [show escapeUnits k ++ (34 :: (58 :: (stringify v ++ (125 :: rest))))
              = escapeUnits k ++ ((34 : Nat) :: (58 :: (stringify v ++ (125 :: rest)))) from rfl]
          rw [parseStrBody_escape k (58 :: (stringify v ++ (125 :: rest))) hwfk]
          simp only
          rw [ihV v (125 :: rest) hwfv hszv (startsNonDigit_cons 125 rest rfl)]
        | cons g t2 =>
          have hszt : jmsize (g :: t2) ≤ f := by
            have h1 : jmsize ((k, v) :: g :: t2) = 1 + jsize v + jmsize (g :: t2) := by
              simp [jmsize]
            have := jsize_pos v
            omega
          have hin : sepObj ((k, v) :: g :: t2) ++ (125 :: rest)
              = 34 :: (escapeUnits k ++ (34 :: (58 :: (stringify v
                  ++ (44 :: (sepObj (g :: t2) ++ (125 :: rest))))))) := by
            simp [sepObj, strLit, List.append_assoc]
          rw [hin, parseMembers_34]
          rw [parseStrBody_escape k (58 :: (stringify v ++ (44 :: (sepObj (g :: t2)
            ++ (125 :: rest))))) hwfk]
          simp only
          rw [ihV v (44 :: (sepObj (g :: t2) ++ (125 :: rest))) hwfv hszv
            (startsNonDigit_cons 44 _ rfl)]
          simp only
          rw [ihM (g :: t2) rest hwft hszt (by simp)]
          rfl

/-- Parsing the serialization of a well-formed value returns the value. -/
theorem parse_stringify (j : Json) (h : jsonWF j = true) : parse (stringify j) = some j := by
  unfold parse
  have hb := jsize_le_stringify j
  have hmain := (parseValue_stringify (2 * (stringify j).length + 1)).1 j [] h
    (by omega) startsNonDigit_nil
  rw [List.append_nil] at hmain
  rw [hmain]

/-! ## Frame codec and host output

host.ts sendMessage serializes a message, measures its byte length,
writes a 4-byte little-endian header and then the payload.  The drain
loop of setupMessageListener JSON-parses each extracted payload; on a
parse failure it calls sendError('Invalid message format', 'unknown')
instead of throwing. -/

/-- host.ts sendMessage: the encoded frame of one message. -/
def encodeMsg (m : Json) : List Nat := encodeFrame (stringify m)

/-- Frame decoding as performed by the stream assembler on the bytes of
a single frame: run the assembler and JSON-parse the single extracted
payload. -/
def decodeMsg (b : List Nat) : Option Json :=
  match (onData asmInit b).2 with
  | [p] => parse p
  | _ => none

/-- Observable host reaction to one extracted frame payload. -/
inductive HostOutput where
  | dispatched (m : Json)
  | errorSent (error : String) (requestId : String)

/-- The try/catch around JSON.parse in setupMessageListener: a payload
that parses is dispatched, one that does not produces
sendError('Invalid message format', 'unknown'). -/
def processPayload (p : List Nat) : HostOutput :=
  match parse p with
  | some m => .dispatched m
  | none => .errorSent "Invalid message format" "unknown"

theorem onData_single_frame (p : List Nat) (h : p.length < 4294967296) :
    onData asmInit (encodeFrame p) = (asmInit, [p]) := by
  have h1 : onData asmInit (encodeFrame p)
      = drain ⟨true, 0, ([p].map encodeFrame).flatten⟩ := by
    simp [onData, asmInit]
  rw [h1]
  exact drain_frames [p] (by simpa using h)

/-- C3 core: decoding the encoded frame of a well-formed message of
bounded size yields the message back. -/
theorem decodeMsg_encodeMsg (m : Json) (hwf : jsonWF m = true)
    (hlen : (stringify m).length < 4294967296) :
    decodeMsg (encodeMsg m) = some m := by
  unfold decodeMsg encodeMsg
  rw [onData_single_frame (stringify m) hlen]
  simp only
  exact parse_stringify m hwf

theorem processPayload_stringify (m : Json) (hwf : jsonWF m = true) :
    processPayload (stringify m) = .dispatched m := by
  unfold processPayload
  rw [parse_stringify m hwf]

theorem processPayload_bad (p : List Nat) (h : parse p = none) :
    processPayload p = .errorSent "Invalid message format" "unknown" := by
  unfold processPayload
  rw [h]

/-! ## Command dispatcher (host.ts handleMessage)

The dispatcher is modelled at the typed message level of
packages/shared/src/types (NativeMessage, NativeResponse), with `data`
restricted to the shape the host ever reads: the optional `browser`
field of the extractBookmarks input (spec §6).  The extractor classes
are not part of src/, so their behaviour is modelled from the spec:
each exposes extractBookmarks() returning a list of records or
failing, and getDatabasePath() returning a path-or-null or failing;
one environment value fixes the asynchronous outcome of each call.
Thrown errors are modelled by their message strings. -/

/-- The part of a request's `data` the host reads: `data.browser`. -/
structure MessageData where
  browser : Option String
  deriving DecidableEq, Repr

/-- shared/src/types NativeMessage. -/
structure NativeMessage where
  command : String
  data : Option MessageData
  requestId : String
  deriving DecidableEq, Repr

/-- A handler's successful result. -/
inductive HandlerResult where
  | bookmarks (records : List String)
  | databases (chrome firefox safari : Option String)
  | pingReply (timestamp : Nat)
  deriving DecidableEq, Repr

/-- shared/src/types NativeResponse, as built by sendResponse /
sendError: a success response carries data and no error, a failure
response carries an error and no data; both carry a requestId. -/
structure NativeResponse where
  success : Bool
  data : Option HandlerResult
  error : Option String
  requestId : String
  deriving DecidableEq, Repr

/-- Modelled from the spec: the per-source extractor collaborators
(ChromeExtractor, FirefoxExtractor, SafariExtractor are not under
src/).  Each extractBookmarks() resolves with a list of records or
rejects; each getDatabasePath() resolves with a path-or-null or
rejects; `now` is the Date.now() value read by the ping handler. -/
structure ExtractorEnv where
  chromeBookmarks : Except String (List String)
  firefoxBookmarks : Except String (List String)
  safariBookmarks : Except String (List String)
  chromePath : Except String (Option String)
  firefoxPath : Except String (Option String)
  safariPath : Except String (Option String)
  now : Nat
  deriving Repr

/-- JavaScript `message.data?.browser || 'chrome'`: absent data, absent
browser field and the falsy empty string all fall back to "chrome". -/
def browserArg : Option MessageData → String
  | none => "chrome"
  | some d =>
    match d.browser with
    | none => "chrome"
    | some s => if s = "" then "chrome" else s

/-- ASCII lower-casing of one character. -/
def charToLower (c : Char) : Char :=
  if 'A' ≤ c ∧ c ≤ 'Z' then Char.ofNat (c.toNat + 32) else c

/-- JavaScript String.prototype.toLowerCase, modelled on its ASCII
case mapping: for deciding equality with the all-ASCII browser names
chrome/firefox/safari this agrees with the full Unicode mapping. -/
def toLowerCase (s : String) : String := ⟨s.data.map charToLower⟩

/-- host.ts extractBookmarks: switch on browser.toLowerCase(); the
default branch throws `Unsupported browser: ${browser}` with the
original (uncased) name. -/
def extractBookmarksH (env : ExtractorEnv) (browser : String) :
    Except String (List String) :=
  if toLowerCase browser = "chrome" then env.chromeBookmarks
  else if toLowerCase browser = "firefox" then env.firefoxBookmarks
  else if toLowerCase browser = "safari" then env.safariBookmarks
  else .error ("Unsupported browser: " ++ browser)

/-- host.ts getBookmarkDatabases: three sequential awaited
getDatabasePath calls; a rejection of any of them propagates out of
the handler. -/
def getBookmarkDatabasesH (env : ExtractorEnv) : Except String HandlerResult := do
  let c ← env.chromePath
  let f ← env.firefoxPath
  let s ← env.safariPath
  pure (.databases c f s)

/-- The try-block of handleMessage: route the command to its handler. -/
def dispatch (env : ExtractorEnv) (msg : NativeMessage) : Except String HandlerResult :=
  if msg.command = "extractBookmarks" then
    (extractBookmarksH env (browserArg msg.data)).map .bookmarks
  else if msg.command = "getBookmarkDatabases" then
    getBookmarkDatabasesH env
  else if msg.command = "ping" then
    .ok (.pingReply env.now)
  else
    .error ("Unknown command: " ++ msg.command)

/-- host.ts handleMessage: the try/catch around the dispatch always
produces exactly one response — sendResponse
`{success:true, data, requestId}` on success, sendError
`{success:false, error, requestId}` with the request's own requestId
when the handler throws or rejects. -/
def handleMessage (env : ExtractorEnv) (msg : NativeMessage) : NativeResponse :=
  match dispatch env msg with
  | .ok v => ⟨true, some v, none, msg.requestId⟩
  | .error e => ⟨false, none, some e, msg.requestId⟩

/-! ## Request correlator
(packages/extension/src/background/native-messaging.ts)

sendMessage registers a completion handler in the messageHandlers map
under a fresh requestId and schedules a timeout; handleNativeResponse
looks the requestId up and runs the handler if present;
the setTimeout callback re-checks membership before rejecting.  The
map is modelled by its key list, handlers by the completions they
produce. -/

/-- shared NativeResponse as consumed by the client; the `data` payload
is abstracted to an optional string. -/
structure CResponse where
  success : Bool
  data : Option String
  error : Option String
  requestId : String
  deriving DecidableEq, Repr

/-- How a caller's promise is completed. -/
inductive Outcome where
  | fulfilled (data : Option String)
  | rejected (message : String)
  deriving DecidableEq, Repr

/-- One completed caller: which request, and how. -/
structure Completion where
  id : String
  outcome : Outcome
  deriving DecidableEq, Repr

/-- The messageHandlers map, by its keys. -/
structure CorrState where
  pending : List String
  deriving DecidableEq, Repr

def corrInit : CorrState := ⟨[]⟩

/-- shared/src/constants NATIVE_MESSAGE_TIMEOUT (milliseconds). -/
def NATIVE_MESSAGE_TIMEOUT : Nat := 10000

inductive CEvent where
  | send (id : String)
  | respond (r : CResponse)
  | timeoutFire (id : String)
  deriving DecidableEq, Repr

/-- One correlator event:
* `send`: sendMessage sets messageHandlers[id] (Map.set; a collision
  overwrites, leaving the key present);
* `respond`: handleNativeResponse finds the handler and runs it — the
  handler first deletes its entry, then resolves with the response's
  data if `success`, else rejects with the response's error (or the
  fallback message).  With no pending entry it only logs a warning;
* `timeoutFire`: the setTimeout callback of a send; it rejects with
  the timeout error only if the entry is still present, deleting it. -/
def corrStep (s : CorrState) : CEvent → CorrState × List Completion
  | .send id => (⟨if id ∈ s.pending then s.pending else s.pending ++ [id]⟩, [])
  | .respond r =>
    if r.requestId ∈ s.pending then
      (⟨s.pending.erase r.requestId⟩,
        [⟨r.requestId,
          if r.success then .fulfilled r.data
          else .rejected (r.error.getD "Native messaging error")⟩])
    else (s, [])
  | .timeoutFire id =>
    if id ∈ s.pending then
      (⟨s.pending.erase id⟩, [⟨id, .rejected "Native messaging timeout"⟩])
    else (s, [])

/-- Run a sequence of correlator events, collecting completions. -/
def corrRun (s : CorrState) : List CEvent → CorrState × List Completion
  | [] => (s, [])
  | e :: t =>
    let r := corrStep s e
    let r2 := corrRun r.1 t
    (r2.1, r.2 ++ r2.2)

/-- Number of sends of a given id in a trace. -/
def countSend (id : String) (t : List CEvent) : Nat :=
  (t.filter (fun e => e = .send id)).length

/-- The completions belonging to a given id. -/
def complFor (id : String) (cs : List Completion) : List Completion :=
  cs.filter (fun c => c.id = id)

/-- Events that can complete the pending entry of `id`: its matching
response or its timeout callback. -/
def IsCompleter (id : String) : CEvent → Prop
  | .send _ => False
  | .respond r => r.requestId = id
  | .timeoutFire id2 => id2 = id

/-! ## Connection manager
(packages/extension/src/background/native-messaging.ts)

connectToNativeHost installs an onDisconnect listener that nulls the
port and schedules connectToNativeHost again after 5000 ms;
disconnect() calls port.disconnect() and nulls the port but cancels no
scheduled timer.  The state tracks whether the port is non-null, how
many reconnect timers are scheduled but not yet fired, and how many
times connectToNativeHost has run. -/

structure ConnState where
  port : Bool
  timersPending : Nat
  connectCalls : Nat
  deriving DecidableEq, Repr

/-- The fixed reconnect delay (milliseconds) passed to setTimeout in
the onDisconnect listener. -/
def RECONNECT_DELAY : Nat := 5000

inductive ConnEvent where
  | explicitConnect
  | portDisconnected
  | disconnectCall
  | timerFires
  deriving DecidableEq, Repr

/-- connectToNativeHost on its successful path: the port is connected
and the call is counted. -/
def runConnect (s : ConnState) : ConnState :=
  ⟨true, s.timersPending, s.connectCalls + 1⟩

/-- One connection-manager event:
* `explicitConnect`: a client explicitly requests a new connection
  (the constructor path calling connectToNativeHost);
* `portDisconnected`: the port's onDisconnect listener fires (channel
  error or host exit): port = null and a reconnect is scheduled;
* `disconnectCall`: disconnect() — port = null, nothing cancelled,
  nothing scheduled;
* `timerFires`: one scheduled reconnect callback runs
  connectToNativeHost. -/
def connStep (s : ConnState) : ConnEvent → ConnState
  | .explicitConnect => runConnect s
  | .portDisconnected => ⟨false, s.timersPending + 1, s.connectCalls⟩
  | .disconnectCall => ⟨false, s.timersPending, s.connectCalls⟩
  | .timerFires =>
    if s.timersPending = 0 then s
    else runConnect ⟨s.port, s.timersPending - 1, s.connectCalls⟩

def connRun (s : ConnState) : List ConnEvent → ConnState
  | [] => s
  | e :: t => connRun (connStep s e) t

/-! ## Correlator lemmas -/

theorem complFor_append (id : String) (a b : List Completion) :
    complFor id (a ++ b) = complFor id a ++ complFor id b := by
  simp [complFor, List.filter_append]

theorem corrRun_append (s : CorrState) (t1 t2 : List CEvent) :
    corrRun s (t1 ++ t2)
      = ((corrRun (corrRun s t1).1 t2).1,
         (corrRun s t1).2 ++ (corrRun (corrRun s t1).1 t2).2) := by
  induction t1 generalizing s with
  | nil => simp [corrRun]
  | cons e t ih => simp [corrRun, ih, List.append_assoc]

theorem corrStep_nodup (s : CorrState) (e : CEvent) (h : s.pending.Nodup) :
    ((corrStep s e).1).pending.Nodup := by
  cases e with
  | send id =>
    by_cases hm : id ∈ s.pending
    · simpa [corrStep, hm] using h
    · simp only [corrStep, hm, if_neg]
      simp [List.nodup_append, h, hm]
  | respond r =>
    by_cases hm : r.requestId ∈ s.pending
    · simpa [corrStep, hm] using h.erase r.requestId
    · simpa [corrStep, hm] using h
  | timeoutFire id =>
    by_cases hm : id ∈ s.pending
    · simpa [corrStep, hm] using h.erase id
    · simpa [corrStep, hm] using h

theorem corrStep_send_mem (s : CorrState) (id : String) :
    id ∈ ((corrStep s (.send id)).1).pending := by
  by_cases hm : id ∈ s.pending <;> simp [corrStep, hm]

theorem corrRun_cons (s : CorrState) (e : CEvent) (t : List CEvent) :
    corrRun s (e :: t)
      = ((corrRun (corrStep s e).1 t).1,
         (corrStep s e).2 ++ (corrRun (corrStep s e).1 t).2) := rfl

theorem corrStep_send_fst (s : CorrState) (id : String) :
    (corrStep s (.send id)).1
      = ⟨if id ∈ s.pending then s.pending else s.pending ++ [id]⟩ := rfl

theorem corrStep_send_snd (s : CorrState) (id : String) :
    (corrStep s (.send id)).2 = [] := rfl

/-- The completion a found handler produces for a response. -/
def respCompletion (r : CResponse) : Completion :=
  ⟨r.requestId,
    if r.success then .fulfilled r.data
    else .rejected (r.error.getD "Native messaging error")⟩

theorem corrStep_respond_mem (s : CorrState) (r : CResponse)
    (h : r.requestId ∈ s.pending) :
    corrStep s (.respond r) = (⟨s.pending.erase r.requestId⟩, [respCompletion r]) := by
  simp [corrStep, h, respCompletion]

theorem corrStep_respond_mem_fst (s : CorrState) (r : CResponse)
    (h : r.requestId ∈ s.pending) :
    (corrStep s (.respond r)).1 = ⟨s.pending.erase r.requestId⟩ := by
  rw [corrStep_respond_mem s r h]

theorem corrStep_respond_mem_snd (s : CorrState) (r : CResponse)
    (h : r.requestId ∈ s.pending) :
    (corrStep s (.respond r)).2 = [respCompletion r] := by
  rw [corrStep_respond_mem s r h]

theorem corrStep_respond_not_mem (s : CorrState) (r : CResponse)
    (h : r.requestId ∉ s.pending) :
    corrStep s (.respond r) = (s, []) := by
  simp [corrStep, h]

theorem corrStep_respond_not_mem_fst (s : CorrState) (r : CResponse)
    (h : r.requestId ∉ s.pending) : (corrStep s (.respond r)).1 = s := by
  rw [corrStep_respond_not_mem s r h]

theorem corrStep_respond_not_mem_snd (s : CorrState) (r : CResponse)
    (h : r.requestId ∉ s.pending) : (corrStep s (.respond r)).2 = [] := by
  rw [corrStep_respond_not_mem s r h]

theorem corrStep_timeout_mem (s : CorrState) (id : String) (h : id ∈ s.pending) :
    corrStep s (.timeoutFire id)
      = (⟨s.pending.erase id⟩, [⟨id, .rejected "Native messaging timeout"⟩]) := by
  simp [corrStep, h]

theorem corrStep_timeout_mem_fst (s : CorrState) (id : String) (h : id ∈ s.pending) :
    (corrStep s (.timeoutFire id)).1 = ⟨s.pending.erase id⟩ := by
  rw [corrStep_timeout_mem s id h]

theorem corrStep_timeout_mem_snd (s : CorrState) (id : String) (h : id ∈ s.pending) :
    (corrStep s (.timeoutFire id)).2
      = [⟨id, .rejected "Native messaging timeout"⟩] := by
  rw [corrStep_timeout_mem s id h]

theorem corrStep_timeout_not_mem (s : CorrState) (id : String) (h : id ∉ s.pending) :
    corrStep s (.timeoutFire id) = (s, []) := by
  simp [corrStep, h]

theorem corrStep_timeout_not_mem_fst (s : CorrState) (id : String) (h : id ∉ s.pending) :
    (corrStep s (.timeoutFire id)).1 = s := by
  rw [corrStep_timeout_not_mem s id h]

theorem corrStep_timeout_not_mem_snd (s : CorrState) (id : String) (h : id ∉ s.pending) :
    (corrStep s (.timeoutFire id)).2 = [] := by
  rw [corrStep_timeout_not_mem s id h]

theorem complFor_singleton_eq (id : String) (o : Outcome) :
    complFor id [⟨id, o⟩] = [⟨id, o⟩] := by
  simp [complFor, List.filter]

theorem complFor_singleton_ne (id j : String) (o : Outcome) (h : j ≠ id) :
    complFor id [⟨j, o⟩] = [] := by
  simp [complFor, List.filter, h]

theorem complFor_nil (id : String) : complFor id [] = [] := rfl

/-- Each id is completed at most once per send (and at most once in
total when it was pending initially). -/
theorem complFor_le (t : List CEvent) (s : CorrState) (id : String)
    (hnd : s.pending.Nodup) :
    (complFor id (corrRun s t).2).length
      ≤ countSend id t + (if id ∈ s.pending then 1 else 0) := by
  induction t generalizing s with
  | nil => simp [corrRun, complFor]
  | cons e t ih =>
    have hnd2 := corrStep_nodup s e hnd
    rw [corrRun_cons]
    simp only [complFor_append, List.length_append]
    cases e with
    | send id2 =>
      have hcount : countSend id (CEvent.send id2 :: t)
          = countSend id t + (if id2 = id then 1 else 0) := by
        by_cases hid : id2 = id <;> simp [countSend, List.filter_cons, hid] <;> omega
      rw [corrStep_send_snd, complFor_nil, hcount]
      have hthis := ih (corrStep s (.send id2)).1 hnd2
      by_cases hid : id2 = id
      · subst hid
        rw [if_pos (corrStep_send_mem s id2)] at hthis
        simp only [List.length_nil]
        have hb : (if id2 = id2 then (1 : Nat) else 0) = 1 := if_pos rfl
        simp only [hb, if_true]
        omega
      · have hmem : id ∈ ((corrStep s (.send id2)).1).pending ↔ id ∈ s.pending := by
          by_cases hm : id2 ∈ s.pending
          · simp [corrStep, hm]
          · simp [corrStep, hm, Ne.symm hid]
        simp only [List.length_nil, if_neg hid]
        by_cases hin : id ∈ s.pending
        · rw [if_pos (hmem.mpr hin)] at hthis
          rw [if_pos hin]
          omega
        · rw [if_neg (fun hc => hin (hmem.mp hc))] at hthis
          rw [if_neg hin]
          omega
    | respond r =>
      have hcount : countSend id (CEvent.respond r :: t) = countSend id t := by
        simp [countSend, List.filter_cons]
      rw [hcount]
      by_cases hm : r.requestId ∈ s.pending
      · rw [corrStep_respond_mem_fst s r hm, corrStep_respond_mem_snd s r hm]
        rw [corrStep_respond_mem_fst s r hm] at hnd2
        have hthis := ih ⟨s.pending.erase r.requestId⟩ (by simpa using hnd2)
        by_cases hid : r.requestId = id
        · have hnotmem : id ∉ s.pending.erase r.requestId := by
            intro hc
            exact absurd ((hnd.mem_erase_iff).mp hc).1 (by simp [hid])
          rw [if_neg hnotmem] at hthis
          have hhead : (complFor id [respCompletion r]).length ≤ 1 := by
            unfold respCompletion
            rw [hid, complFor_singleton_eq]
            simp
          rw [if_pos (hid ▸ hm)]
          omega
        · have hmem : id ∈ s.pending.erase r.requestId ↔ id ∈ s.pending :=
            List.mem_erase_of_ne (Ne.symm hid)
          have hhead : complFor id [respCompletion r] = [] :=
            complFor_singleton_ne id r.requestId _ hid
          rw [hhead]
          simp only [List.length_nil]
          by_cases hin : id ∈ s.pending
          · rw [if_pos (hmem.mpr hin)] at hthis
            rw [if_pos hin]
            omega
          · rw [if_neg (fun hc => hin (hmem.mp hc))] at hthis
            rw [if_neg hin]
            omega
      · rw [corrStep_respond_not_mem_fst s r hm, corrStep_respond_not_mem_snd s r hm]
        have hthis := ih s hnd
        rw [complFor_nil]
        simp only [List.length_nil]
        omega
    | timeoutFire id2 =>
      have hcount : countSend id (CEvent.timeoutFire id2 :: t) = countSend id t := by
        simp [countSend, List.filter_cons]
      rw [hcount]
      by_cases hm : id2 ∈ s.pending
      · rw [corrStep_timeout_mem_fst s id2 hm, corrStep_timeout_mem_snd s id2 hm]
        rw [corrStep_timeout_mem_fst s id2 hm] at hnd2
        have hthis := ih ⟨s.pending.erase id2⟩ (by simpa using hnd2)
        by_cases hid : id2 = id
        · have hnotmem : id ∉ s.pending.erase id2 := by
            intro hc
            exact absurd ((hnd.mem_erase_iff).mp hc).1 (by simp [hid])
          rw [if_neg hnotmem] at hthis
          have hhead : (complFor id
              [(⟨id2, Outcome.rejected "Native messaging timeout"⟩ : Completion)]).length ≤ 1 := by
            rw [hid, complFor_singleton_eq]
            simp
          rw [if_pos (hid ▸ hm)]
          omega
        · have hmem : id ∈ s.pending.erase id2 ↔ id ∈ s.pending :=
            List.mem_erase_of_ne (Ne.symm hid)
          have hhead : complFor id
              [(⟨id2, Outcome.rejected "Native messaging timeout"⟩ : Completion)] = [] :=
            complFor_singleton_ne id id2 _ hid
          rw [hhead]
          simp only [List.length_nil]
          by_cases hin : id ∈ s.pending
          · rw [if_pos (hmem.mpr hin)] at hthis
            rw [if_pos hin]
            omega
          · rw [if_neg (fun hc => hin (hmem.mp hc))] at hthis
            rw [if_neg hin]
            omega
      · rw [corrStep_timeout_not_mem_fst s id2 hm, corrStep_timeout_not_mem_snd s id2 hm]
        have hthis := ih s hnd
        rw [complFor_nil]
        simp only [List.length_nil]
        omega

/-- A pending id is completed at least once as soon as its trace holds
a matching response or its timeout event. -/
theorem complFor_ge_one (t : List CEvent) (s : CorrState) (id : String)
    (hmem : id ∈ s.pending) (hc : ∃ e ∈ t, IsCompleter id e) :
    1 ≤ (complFor id (corrRun s t).2).length := by
  induction t generalizing s with
  | nil =>
    obtain ⟨e, he, _⟩ := hc
    cases he
  | cons e t ih =>
    rw [corrRun_cons]
    simp only [complFor_append, List.length_append]
    cases e with
    | send id2 =>
      have hmem2 : id ∈ ((corrStep s (.send id2)).1).pending := by
        by_cases hm : id2 ∈ s.pending <;> simp [corrStep, hm, hmem]
      have hc2 : ∃ e ∈ t, IsCompleter id e := by
        obtain ⟨e, he, hie⟩ := hc
        rcases List.mem_cons.mp he with he1 | he1
        · subst he1
          cases hie
        · exact ⟨e, he1, hie⟩
      have := ih (corrStep s (.send id2)).1 hmem2 hc2
      omega
    | respond r =>
      by_cases hid : r.requestId = id
      · rw [corrStep_respond_mem_snd s r (by rw [hid]; exact hmem)]
        have hhead : (complFor id [respCompletion r]).length = 1 := by
          unfold respCompletion
          rw [hid, complFor_singleton_eq]
          rfl
        omega
      · have hc2 : ∃ e ∈ t, IsCompleter id e := by
          obtain ⟨e, he, hie⟩ := hc
          rcases List.mem_cons.mp he with he1 | he1
          · subst he1
            exact absurd hie hid
          · exact ⟨e, he1, hie⟩
        by_cases hm : r.requestId ∈ s.pending
        · rw [corrStep_respond_mem_fst s r hm]
          have hmem2 : id ∈ s.pending.erase r.requestId :=
            (List.mem_erase_of_ne (Ne.symm hid)).mpr hmem
          have := ih ⟨s.pending.erase r.requestId⟩ hmem2 hc2
          omega
        · rw [corrStep_respond_not_mem_fst s r hm]
          have := ih s hmem hc2
          omega
    | timeoutFire id2 =>
      by_cases hid : id2 = id
      · rw [corrStep_timeout_mem_snd s id2 (by rw [hid]; exact hmem)]
        have hhead : (complFor id
            [(⟨id2, Outcome.rejected "Native messaging timeout"⟩ : Completion)]).length = 1 := by
          rw [hid, complFor_singleton_eq]
          rfl
        omega
      · have hc2 : ∃ e ∈ t, IsCompleter id e := by
          obtain ⟨e, he, hie⟩ := hc
          rcases List.mem_cons.mp he with he1 | he1
          · subst he1
            exact absurd hie hid
          · exact ⟨e, he1, hie⟩
        by_cases hm : id2 ∈ s.pending
        · rw [corrStep_timeout_mem_fst s id2 hm]
          have hmem2 : id ∈ s.pending.erase id2 :=
            (List.mem_erase_of_ne (Ne.symm hid)).mpr hmem
          have := ih ⟨s.pending.erase id2⟩ hmem2 hc2
          omega
        · rw [corrStep_timeout_not_mem_fst s id2 hm]
          have := ih s hmem hc2
          omega

/-- With no matching response in the trace, every completion of an id
is the timeout rejection. -/
theorem complFor_timeout_only (t : List CEvent) (s : CorrState) (id : String)
    (hnr : ∀ r, CEvent.respond r ∈ t → r.requestId ≠ id) :
    ∀ c ∈ (corrRun s t).2, c.id = id →
      c.outcome = .rejected "Native messaging timeout" := by
  induction t generalizing s with
  | nil =>
    intro c hc
    cases hc
  | cons e t ih =>
    intro c hc hcid
    simp only [corrRun, List.mem_append] at hc
    rcases hc with hc | hc
    · cases e with
      | send id2 =>
        cases hc
      | respond r =>
        by_cases hm : r.requestId ∈ s.pending
        · have hstep : (corrStep s (.respond r)).2
              = [⟨r.requestId,
                  if r.success then .fulfilled r.data
                  else .rejected (r.error.getD "Native messaging error")⟩] := by
            simp [corrStep, hm]
          rw [hstep] at hc
          rcases List.mem_singleton.mp hc with rfl
          exact absurd hcid (hnr r (by simp))
        · have hstep : (corrStep s (.respond r)).2 = [] := by simp [corrStep, hm]
          rw [hstep] at hc
          cases hc
      | timeoutFire id2 =>
        by_cases hm : id2 ∈ s.pending
        · have hstep : (corrStep s (.timeoutFire id2)).2
              = [⟨id2, .rejected "Native messaging timeout"⟩] := by
            simp [corrStep, hm]
          rw [hstep] at hc
          rcases List.mem_singleton.mp hc with rfl
          rfl
        · have hstep : (corrStep s (.timeoutFire id2)).2 = [] := by simp [corrStep, hm]
          rw [hstep] at hc
          cases hc
    · exact ih (corrStep s e).1 (fun r hr => hnr r (by simp [hr])) c hc hcid

theorem complFor_mem_id (id : String) (cs : List Completion) :
    ∀ c ∈ complFor id cs, c.id = id := by
  intro c hc
  have := List.of_mem_filter hc
  simpa using this

theorem eq_singleton_of_length_one {α : Type} (l : List α) (x : α)
    (hl : l.length = 1) (hx : ∀ a ∈ l, a = x) : l = [x] := by
  cases l with
  | nil => simp at hl
  | cons a t =>
    cases t with
    | nil => rw [hx a (by simp)]
    | cons b t2 => simp at hl

/-! ## Claim theorems -/

/-- C1: Chunk-invariance of the host's Stream Assembler — for every
valid sequence of encoded frames and every way of splitting the
concatenated bytes into chunks, feeding the chunks in order yields
exactly the original sequence of payloads (hence of decoded messages),
in order, with every frame completed within a chunk drained in that
same pass and no unconsumed bytes discarded between chunks (the final
state is again the initial wait state). -/
theorem C1_chunk_invariance (ps chunks : List (List Nat))
    (hlen : ∀ p ∈ ps, p.length < 4294967296)
    (hsplit : chunks.flatten = (ps.map encodeFrame).flatten) :
    feedAll asmInit chunks = (asmInit, ps) ∧
    ((feedAll asmInit chunks).2).map processPayload = ps.map processPayload := by
  have h := feedAll_chunks ps chunks hlen hsplit
  exact ⟨h, by rw [h]⟩

/-- Witness for C1 at a concrete two-frame stream (payloads "null" and
the empty payload) split at arbitrary offsets, one of them inside the
length prefix. -/
theorem C1_chunk_invariance_witness :
    (∀ p ∈ ([[110, 117, 108, 108], []] : List (List Nat)), p.length < 4294967296) ∧
    ([[4], [0, 0, 0, 110], [117, 108], [108, 0, 0], [0, 0]] : List (List Nat)).flatten
      = (([[110, 117, 108, 108], []] : List (List Nat)).map encodeFrame).flatten ∧
    feedAll asmInit [[4], [0, 0, 0, 110], [117, 108], [108, 0, 0], [0, 0]]
      = (asmInit, [[110, 117, 108, 108], []]) :=
  ⟨by decide, by decide,
    (C1_chunk_invariance [[110, 117, 108, 108], []]
      [[4], [0, 0, 0, 110], [117, 108], [108, 0, 0], [0, 0]]
      (by decide) (by decide)).1⟩

/-- C3: Frame Codec round-trip — decoding the bytes produced by
encoding a well-formed message within the size bound (4-byte
little-endian prefix equal to the payload byte length, then the
payload) yields the message back. -/
theorem C3_frame_roundtrip (m : Json) (hwf : jsonWF m = true)
    (hlen : (stringify m).length < 4294967296) :
    decodeMsg (encodeMsg m) = some m :=
  decodeMsg_encodeMsg m hwf hlen

/-- Witness for C3 at the concrete message with source text
`\x7b"s":true\x7d`. -/
theorem C3_frame_roundtrip_witness :
    jsonWF (Json.obj [([115], Json.bool true)]) = true ∧
    (stringify (Json.obj [([115], Json.bool true)])).length < 4294967296 ∧
    decodeMsg (encodeMsg (Json.obj [([115], Json.bool true)]))
      = some (Json.obj [([115], Json.bool true)]) := by
  have hwf : jsonWF (Json.obj [([115], Json.bool true)]) = true := by
    simp [jsonWF, jsonObjWF, unitsWF]
  have hs : stringify (Json.obj [([115], Json.bool true)])
      = [123, 34, 115, 34, 58, 116, 114, 117, 101, 125] := by
    simp [stringify, sepObj, strLit, escapeUnits]
  have hlen : (stringify (Json.obj [([115], Json.bool true)])).length < 4294967296 := by
    rw [hs]
    decide
  exact ⟨hwf, hlen, C3_frame_roundtrip _ hwf hlen⟩

/-- C5: Decode-error resynchronization — a well-framed payload that is
not valid JSON is consumed exactly, surfaces
sendError('Invalid message format', 'unknown') instead of throwing,
the assembler returns to the length-expecting state, and every
subsequent well-formed frame in the stream is decoded correctly. -/
theorem C5_decode_error_resync (bad : List Nat) (msgs : List Json)
    (chunks : List (List Nat))
    (hbad : parse bad = none) (hblen : bad.length < 4294967296)
    (hmsgs : ∀ m ∈ msgs, jsonWF m = true ∧ (stringify m).length < 4294967296)
    (hsplit : chunks.flatten
      = encodeFrame bad ++ ((msgs.map stringify).map encodeFrame).flatten) :
    feedAll asmInit chunks = (asmInit, bad :: msgs.map stringify) ∧
    ((feedAll asmInit chunks).2).map processPayload
      = HostOutput.errorSent "Invalid message format" "unknown"
          :: msgs.map HostOutput.dispatched := by
  have hps : ∀ p ∈ (bad :: msgs.map stringify), p.length < 4294967296 := by
    intro p hp
    rcases List.mem_cons.mp hp with rfl | hp2
    · exact hblen
    · obtain ⟨m, hm, rfl⟩ := List.mem_map.mp hp2
      exact (hmsgs m hm).2
  have hsplit2 : chunks.flatten = ((bad :: msgs.map stringify).map encodeFrame).flatten := by
    rw [hsplit]
    simp
  have h := feedAll_chunks (bad :: msgs.map stringify) chunks hps hsplit2
  refine ⟨h, ?_⟩
  rw [h]
  simp only [List.map_cons, List.map_map]
  rw [processPayload_bad bad hbad]
  congr 1
  apply List.map_congr_left
  intro m hm
  simp only [Function.comp_apply]
  exact processPayload_stringify m (hmsgs m hm).1

/-- Witness for C5: the invalid one-byte payload 0x7b followed by the
well-formed frame of `null`, delivered in two chunks split inside the
second frame's length prefix. -/
theorem C5_decode_error_resync_witness :
    parse [123] = none ∧
    feedAll asmInit [[1, 0, 0, 0, 123, 4, 0], [0, 0, 110, 117, 108, 108]]
      = (asmInit, [123] :: [Json.null].map stringify) ∧
    ((feedAll asmInit [[1, 0, 0, 0, 123, 4, 0], [0, 0, 110, 117, 108, 108]]).2).map processPayload
      = HostOutput.errorSent "Invalid message format" "unknown"
          :: [Json.null].map HostOutput.dispatched := by
  have h := C5_decode_error_resync [123] [Json.null]
    [[1, 0, 0, 0, 123, 4, 0], [0, 0, 110, 117, 108, 108]]
    rfl (by decide)
    (by
      intro m hm
      rcases List.mem_singleton.mp hm with rfl
      constructor
      · rfl
      · have hs : stringify Json.null = [110, 117, 108, 108] := by simp [stringify]
        rw [hs]
        decide)
    (by
      have hs : stringify Json.null = [110, 117, 108, 108] := by simp [stringify]
      simp [hs, encodeFrame, toLE4])
  exact ⟨rfl, h.1, h.2⟩

/-- A request sent once and followed by a matching response or its
timeout is completed exactly once. -/
theorem complFor_eq_one_of (t1 t2 : List CEvent) (id : String)
    (hcount : countSend id (t1 ++ CEvent.send id :: t2) ≤ 1)
    (hc : ∃ e ∈ t2, IsCompleter id e) :
    (complFor id (corrRun corrInit (t1 ++ CEvent.send id :: t2)).2).length = 1 := by
  have hupper := complFor_le (t1 ++ CEvent.send id :: t2) corrInit id List.nodup_nil
  have hnotmem : id ∉ corrInit.pending := by simp [corrInit]
  rw [if_neg hnotmem] at hupper
  have hsplit := corrRun_append corrInit t1 (CEvent.send id :: t2)
  set s1 := (corrRun corrInit t1).1 with hs1
  have hcons := corrRun_cons s1 (.send id) t2
  have hmem2 : id ∈ ((corrStep s1 (.send id)).1).pending := corrStep_send_mem s1 id
  have hlower := complFor_ge_one t2 (corrStep s1 (.send id)).1 id hmem2 hc
  have hlen : 1 ≤ (complFor id (corrRun corrInit (t1 ++ CEvent.send id :: t2)).2).length := by
    rw [hsplit, hcons]
    simp only [complFor_append, List.length_append, corrStep_send_snd, complFor_nil]
    omega
  omega

/-- C2: Exactly-once completion and idempotent drop in the Request
Correlator — a pending request is completed at most once per send and
exactly once when its matching response or timeout occurs after the
send, and delivering a response whose requestId is not pending raises
no error, completes no caller, and leaves the whole state (hence every
other pending entry) unchanged. -/
theorem C2_exactly_once_and_idempotent_drop :
    (∀ (s : CorrState) (r : CResponse), r.requestId ∉ s.pending →
      corrStep s (.respond r) = (s, [])) ∧
    (∀ (t : List CEvent) (id : String), countSend id t ≤ 1 →
      (complFor id (corrRun corrInit t).2).length ≤ 1) ∧
    (∀ (t1 t2 : List CEvent) (id : String),
      countSend id (t1 ++ CEvent.send id :: t2) ≤ 1 →
      (∃ e ∈ t2, IsCompleter id e) →
      (complFor id (corrRun corrInit (t1 ++ CEvent.send id :: t2)).2).length = 1) := by
  refine ⟨corrStep_respond_not_mem, ?_, complFor_eq_one_of⟩
  intro t id hcount
  have h := complFor_le t corrInit id List.nodup_nil
  have hnotmem : id ∉ corrInit.pending := by simp [corrInit]
  rw [if_neg hnotmem] at h
  omega

/-- Witness for C2: dropping a response for the unknown id "x" on a
state with "a" pending is a no-op, and in the concrete trace
send a; respond b; respond a the id "a" completes exactly once. -/
theorem C2_exactly_once_and_idempotent_drop_witness :
    (⟨false, none, some "nope", "x"⟩ : CResponse).requestId ∉ (⟨["a"]⟩ : CorrState).pending ∧
    corrStep ⟨["a"]⟩ (.respond ⟨false, none, some "nope", "x"⟩) = (⟨["a"]⟩, []) ∧
    countSend "a" ([] ++ CEvent.send "a"
      :: [CEvent.respond ⟨true, some "ok", none, "a"⟩]) ≤ 1 ∧
    (complFor "a" (corrRun corrInit ([] ++ CEvent.send "a"
      :: [CEvent.respond ⟨true, some "ok", none, "a"⟩])).2).length = 1 := by
  refine ⟨by decide, C2_exactly_once_and_idempotent_drop.1 ⟨["a"]⟩ _ (by decide),
    by decide, C2_exactly_once_and_idempotent_drop.2.2 [] _ "a" (by decide) ?_⟩
  exact ⟨.respond ⟨true, some "ok", none, "a"⟩, by simp, rfl⟩

/-- C8: Timeout behaviour — NATIVE_MESSAGE_TIMEOUT is 10000 ms; when
the timeout callback fires for a still-pending id it removes exactly
that entry (leaving every other id's pending status unchanged) and
rejects that caller with the timeout error; and over a whole trace in
which a request is sent once and never answered, the send's timeout
event completes exactly that one caller, with the timeout error. -/
theorem C8_timeout_behaviour :
    NATIVE_MESSAGE_TIMEOUT = 10000 ∧
    (∀ (s : CorrState) (id : String), id ∈ s.pending →
      corrStep s (.timeoutFire id)
        = (⟨s.pending.erase id⟩, [⟨id, .rejected "Native messaging timeout"⟩]) ∧
      ∀ j, j ≠ id → (j ∈ s.pending.erase id ↔ j ∈ s.pending)) ∧
    (∀ (t1 t2 : List CEvent) (id : String),
      countSend id (t1 ++ CEvent.send id :: t2) ≤ 1 →
      (∀ r, CEvent.respond r ∈ t1 ++ CEvent.send id :: t2 → r.requestId ≠ id) →
      CEvent.timeoutFire id ∈ t2 →
      complFor id (corrRun corrInit (t1 ++ CEvent.send id :: t2)).2
        = [⟨id, .rejected "Native messaging timeout"⟩]) := by
  refine ⟨rfl, ?_, ?_⟩
  · intro s id hmem
    exact ⟨corrStep_timeout_mem s id hmem,
      fun j hj => List.mem_erase_of_ne hj⟩
  · intro t1 t2 id hcount hnr htimeout
    have hlen := complFor_eq_one_of t1 t2 id hcount
      ⟨.timeoutFire id, htimeout, rfl⟩
    have houtcome := complFor_timeout_only (t1 ++ CEvent.send id :: t2) corrInit id hnr
    apply eq_singleton_of_length_one _ _ hlen
    intro c hcmem
    have hid : c.id = id := complFor_mem_id id _ c hcmem
    have hout : c.outcome = .rejected "Native messaging timeout" := by
      exact houtcome c (List.mem_of_mem_filter hcmem) hid
    cases c
    simp only at hid hout
    rw [hid, hout]

/-- Witness for C8: the trace send a; timeout a from the empty
correlator completes "a" exactly once with the timeout rejection. -/
theorem C8_timeout_behaviour_witness :
    NATIVE_MESSAGE_TIMEOUT = 10000 ∧
    ("a" : String) ∈ (⟨["a", "b"]⟩ : CorrState).pending ∧
    corrStep ⟨["a", "b"]⟩ (.timeoutFire "a")
      = (⟨["b"]⟩, [⟨"a", .rejected "Native messaging timeout"⟩]) ∧
    complFor "a" (corrRun corrInit ([] ++ CEvent.send "a"
      :: [CEvent.timeoutFire "a"])).2
      = [⟨"a", .rejected "Native messaging timeout"⟩] := by
  have h2 := (C8_timeout_behaviour.2.1 ⟨["a", "b"]⟩ "a" (by decide)).1
  have h3 := C8_timeout_behaviour.2.2 [] [CEvent.timeoutFire "a"] "a" (by decide)
    (by
      intro r hr
      rcases List.mem_cons.mp hr with h1 | h1
      · cases h1
      · rcases List.mem_cons.mp h1 with h2 | h2
        · cases h2
        · cases h2)
    (by simp)
  refine ⟨rfl, by decide, ?_, h3⟩
  rw [h2]
  have : (["a", "b"] : List String).erase "a" = ["b"] := by decide
  rw [this]

/-- C7 counterexample: starting from a connected client, a channel
error schedules a reconnect (connectCalls still 1 after the error and
the explicit disconnect()), and the already-scheduled timer then fires
and performs an automatic reconnect (connectCalls 2, port connected)
although the last client action was an explicit disconnect() and no
new connection was explicitly requested — disconnect() cancels no
pending reconnect timer. -/
theorem C7_counterexample :
    (connRun ⟨true, 0, 1⟩ [.portDisconnected, .disconnectCall]).connectCalls = 1 ∧
    (connRun ⟨true, 0, 1⟩ [.portDisconnected, .disconnectCall]).timersPending = 1 ∧
    connRun ⟨true, 0, 1⟩ [.portDisconnected, .disconnectCall, .timerFires]
      = ⟨true, 0, 2⟩ := by
  decide

/-- C7 amended: disconnect() itself never schedules a reconnect — only
the onDisconnect listener (channel error / host exit) does — but it
does not cancel an already-scheduled reconnect either: a pending
reconnect timer still fires after an explicit disconnect() and
performs an automatic reconnect. -/
theorem C7_amended_disconnect_reconnect (s : ConnState) :
    connStep s .disconnectCall = ⟨false, s.timersPending, s.connectCalls⟩ ∧
    (∀ e : ConnEvent, s.timersPending < (connStep s e).timersPending →
      e = .portDisconnected) ∧
    (0 < s.timersPending →
      connStep s .timerFires = ⟨true, s.timersPending - 1, s.connectCalls + 1⟩) := by
  refine ⟨rfl, ?_, ?_⟩
  · intro e h
    cases e with
    | explicitConnect => simp [connStep, runConnect] at h
    | portDisconnected => rfl
    | disconnectCall => simp [connStep] at h
    | timerFires =>
      by_cases h0 : s.timersPending = 0
      · rw [connStep, if_pos h0] at h
        omega
      · rw [connStep, if_neg h0] at h
        simp [runConnect] at h
        omega
  · intro h
    rw [connStep, if_neg (by omega)]
    rfl

/-- Witness for C7's amended statement on a concrete state with one
pending reconnect timer. -/
theorem C7_amended_disconnect_reconnect_witness :
    connStep ⟨false, 1, 5⟩ .disconnectCall = ⟨false, 1, 5⟩ ∧
    ((⟨false, 1, 5⟩ : ConnState).timersPending
        < (connStep ⟨false, 1, 5⟩ .portDisconnected).timersPending →
      (ConnEvent.portDisconnected = ConnEvent.portDisconnected)) ∧
    (0 < (⟨false, 1, 5⟩ : ConnState).timersPending) ∧
    connStep ⟨false, 1, 5⟩ .timerFires = ⟨true, 0, 6⟩ :=
  ⟨(C7_amended_disconnect_reconnect ⟨false, 1, 5⟩).1,
    fun h => (C7_amended_disconnect_reconnect ⟨false, 1, 5⟩).2.1 .portDisconnected h,
    by decide,
    (C7_amended_disconnect_reconnect ⟨false, 1, 5⟩).2.2 (by decide)⟩

/-- C4: Dispatcher response totality — for every decoded request the
host produces exactly one response, with the request's own requestId:
the success wrapper around the handler result when the handler's
outcome succeeds, the failure wrapper around the error message when it
throws or rejects, and in particular a command with no registered
handler yields the failure response "Unknown command: ..." rather than
a crash. -/
theorem C4_dispatcher_totality (env : ExtractorEnv) (msg : NativeMessage) :
    (handleMessage env msg).requestId = msg.requestId ∧
    ((∃ v, dispatch env msg = .ok v ∧
        handleMessage env msg = ⟨true, some v, none, msg.requestId⟩) ∨
      (∃ e, dispatch env msg = .error e ∧
        handleMessage env msg = ⟨false, none, some e, msg.requestId⟩)) ∧
    (msg.command ≠ "extractBookmarks" → msg.command ≠ "getBookmarkDatabases" →
      msg.command ≠ "ping" →
      handleMessage env msg
        = ⟨false, none, some ("Unknown command: " ++ msg.command), msg.requestId⟩) := by
  refine ⟨?_, ?_, ?_⟩
  · unfold handleMessage
    cases dispatch env msg <;> rfl
  · cases h : dispatch env msg with
    | ok v => exact Or.inl ⟨v, rfl, by unfold handleMessage; rw [h]⟩
    | error e => exact Or.inr ⟨e, rfl, by unfold handleMessage; rw [h]⟩
  · intro h1 h2 h3
    have hd : dispatch env msg = .error ("Unknown command: " ++ msg.command) := by
      unfold dispatch
      rw [if_neg h1, if_neg h2, if_neg h3]
    unfold handleMessage
    rw [hd]

/-- Witness for C4 at a concrete unknown command. -/
theorem C4_dispatcher_totality_witness :
    (handleMessage ⟨.ok [], .ok [], .ok [], .ok none, .ok none, .ok none, 42⟩
        ⟨"frobnicate", none, "r9"⟩).requestId = "r9" ∧
    handleMessage ⟨.ok [], .ok [], .ok [], .ok none, .ok none, .ok none, 42⟩
        ⟨"frobnicate", none, "r9"⟩
      = ⟨false, none, some ("Unknown command: " ++ "frobnicate"), "r9"⟩ :=
  ⟨(C4_dispatcher_totality _ _).1,
    (C4_dispatcher_totality _ _).2.2 (by decide) (by decide) (by decide)⟩

/-- C6 counterexample: an environment in which the chrome extractor's
getDatabasePath rejects while the others succeed makes the whole
getBookmarkDatabases command fail — success is false and the error
propagates — contradicting the claim that the host still responds with
success and a browser-to-path-or-null mapping. -/
theorem C6_counterexample :
    handleMessage
        ⟨.ok [], .ok [], .ok [], .error "database locked", .ok (some "/p/f"), .ok none, 0⟩
        ⟨"getBookmarkDatabases", none, "r1"⟩
      = ⟨false, none, some "database locked", "r1"⟩ := by
  decide

/-- C6 amended: getBookmarkDatabases responds with success and the
browser-to-path-or-null mapping only when all three getDatabasePath
calls succeed; a rejection from any single extractor's getDatabasePath
becomes a failure response for the whole command (the first rejection
in chrome, firefox, safari order propagates). -/
theorem C6_amended_getBookmarkDatabases (env : ExtractorEnv) (d : Option MessageData)
    (rid : String) :
    (∀ c f s, env.chromePath = .ok c → env.firefoxPath = .ok f → env.safariPath = .ok s →
      handleMessage env ⟨"getBookmarkDatabases", d, rid⟩
        = ⟨true, some (.databases c f s), none, rid⟩) ∧
    (∀ e, env.chromePath = .error e →
      handleMessage env ⟨"getBookmarkDatabases", d, rid⟩ = ⟨false, none, some e, rid⟩) ∧
    (∀ c e, env.chromePath = .ok c → env.firefoxPath = .error e →
      handleMessage env ⟨"getBookmarkDatabases", d, rid⟩ = ⟨false, none, some e, rid⟩) ∧
    (∀ c f e, env.chromePath = .ok c → env.firefoxPath = .ok f →
      env.safariPath = .error e →
      handleMessage env ⟨"getBookmarkDatabases", d, rid⟩ = ⟨false, none, some e, rid⟩) := by
  have hroute : dispatch env ⟨"getBookmarkDatabases", d, rid⟩
      = getBookmarkDatabasesH env := by
    unfold dispatch
    have h1 : ¬ ("getBookmarkDatabases" : String) = "extractBookmarks" := by decide
    rw [if_neg h1, if_pos rfl]
  refine ⟨?_, ?_, ?_, ?_⟩
  · intro c f s hc hf hs
    have hgb : getBookmarkDatabasesH env = .ok (.databases c f s) := by
      unfold getBookmarkDatabasesH
      rw [hc, hf, hs]
      rfl
    unfold handleMessage
    rw [hroute, hgb]
  · intro e hc
    have hgb : getBookmarkDatabasesH env = .error e := by
      unfold getBookmarkDatabasesH
      rw [hc]
      rfl
    unfold handleMessage
    rw [hroute, hgb]
  · intro c e hc hf
    have hgb : getBookmarkDatabasesH env = .error e := by
      unfold getBookmarkDatabasesH
      rw [hc, hf]
      rfl
    unfold handleMessage
    rw [hroute, hgb]
  · intro c f e hc hf hs
    have hgb : getBookmarkDatabasesH env = .error e := by
      unfold getBookmarkDatabasesH
      rw [hc, hf, hs]
      rfl
    unfold handleMessage
    rw [hroute, hgb]

/-- Witness for C6's amended statement: all three succeed and the
mapping (some path, none, some path) is returned with success. -/
theorem C6_amended_getBookmarkDatabases_witness :
    handleMessage
        ⟨.ok [], .ok [], .ok [], .ok (some "/p/c"), .ok none, .ok (some "/p/s"), 7⟩
        ⟨"getBookmarkDatabases", none, "r2"⟩
      = ⟨true, some (.databases (some "/p/c") none (some "/p/s")), none, "r2"⟩ :=
  (C6_amended_getBookmarkDatabases _ none "r2").1
    (some "/p/c") none (some "/p/s") rfl rfl rfl

/-- C9: Unsupported-browser failure — any effective browser name whose
lower-cased form is none of chrome, firefox, safari yields the failure
response whose error is "Unsupported browser: " followed by the given
(uncased) name, tagged with the request's own requestId. -/
theorem C9_unsupported_browser (env : ExtractorEnv) (msg : NativeMessage)
    (hcmd : msg.command = "extractBookmarks")
    (h1 : toLowerCase (browserArg msg.data) ≠ "chrome")
    (h2 : toLowerCase (browserArg msg.data) ≠ "firefox")
    (h3 : toLowerCase (browserArg msg.data) ≠ "safari") :
    handleMessage env msg
      = ⟨false, none, some ("Unsupported browser: " ++ browserArg msg.data),
          msg.requestId⟩ := by
  have hd : dispatch env msg
      = .error ("Unsupported browser: " ++ browserArg msg.data) := by
    unfold dispatch extractBookmarksH
    rw [if_pos hcmd, if_neg h1, if_neg h2, if_neg h3]
    rfl
  unfold handleMessage
  rw [hd]

/-- Witness for C9, Scenario B: browser "unsupported" produces
`{success:false, error:"Unsupported browser: unsupported"}` with the
request's requestId. -/
theorem C9_unsupported_browser_witness :
    handleMessage ⟨.ok [], .ok [], .ok [], .ok none, .ok none, .ok none, 0⟩
        ⟨"extractBookmarks", some ⟨some "unsupported"⟩, "r3"⟩
      = ⟨false, none, some "Unsupported browser: unsupported", "r3"⟩ :=
  C9_unsupported_browser _ _ rfl (by decide) (by decide) (by decide)

/-- C10: Implicit default browser — a request whose data is absent,
whose data lacks a browser property, or whose browser is the falsy
empty string does not fail: it is handled exactly as if the browser
were "chrome", dispatching to the Chrome extractor. -/
theorem C10_default_browser (env : ExtractorEnv) (rid : String) (d : Option MessageData)
    (hd : d = none ∨ d = some ⟨none⟩ ∨ d = some ⟨some ""⟩) :
    handleMessage env ⟨"extractBookmarks", d, rid⟩
        = handleMessage env ⟨"extractBookmarks", some ⟨some "chrome"⟩, rid⟩ ∧
    handleMessage env ⟨"extractBookmarks", d, rid⟩
        = (match env.chromeBookmarks with
           | .ok recs => ⟨true, some (.bookmarks recs), none, rid⟩
           | .error e => ⟨false, none, some e, rid⟩) := by
  have hmain : ∀ d2 : Option MessageData, browserArg d2 = "chrome" →
      handleMessage env ⟨"extractBookmarks", d2, rid⟩
        = (match env.chromeBookmarks with
           | .ok recs => ⟨true, some (.bookmarks recs), none, rid⟩
           | .error e => ⟨false, none, some e, rid⟩) := by
    intro d2 hb2
    have hdisp : dispatch env ⟨"extractBookmarks", d2, rid⟩
        = (env.chromeBookmarks).map .bookmarks := by
      unfold dispatch extractBookmarksH
      rw [if_pos rfl, hb2,
        if_pos (show toLowerCase "chrome" = "chrome" by decide)]
    unfold handleMessage
    rw [hdisp]
    cases env.chromeBookmarks <;> rfl
  have hb : browserArg d = "chrome" := by
    rcases hd with rfl | rfl | rfl <;> rfl
  exact ⟨(hmain d hb).trans (hmain (some ⟨some "chrome"⟩) (by decide)).symm, hmain d hb⟩

/-- Witness for C10 at an absent data field and a concrete chrome
extractor result. -/
theorem C10_default_browser_witness :
    ((none : Option MessageData) = none ∨ (none : Option MessageData) = some ⟨none⟩
      ∨ (none : Option MessageData) = some ⟨some ""⟩) ∧
    handleMessage ⟨.ok ["b1"], .error "x", .error "y", .ok none, .ok none, .ok none, 0⟩
        ⟨"extractBookmarks", none, "r4"⟩
      = ⟨true, some (.bookmarks ["b1"]), none, "r4"⟩ :=
  ⟨Or.inl rfl,
    (C10_default_browser
      ⟨.ok ["b1"], .error "x", .error "y", .ok none, .ok none, .ok none, 0⟩
      "r4" none (Or.inl rfl)).2⟩

end UBM
